import Mathlib

/-!
Shallow embedding of `stream_viewer/buffers/stream_data_buffers.py`
(classes `MergeLastOnlyBuffer` and `TimeSeriesBuffer`) and proofs about it.

Modelling conventions:
* Python floats (timestamps, rates, sample values) are modelled as `ℚ`.
* A float array cell is a `Val`: either a number, the NaN sentinel, or a
  string (for object-dtype marker streams).  Arithmetic on anything but two
  numbers yields `Val.nan`, matching IEEE NaN propagation (string arithmetic
  would raise in numpy; it is never exercised on numeric buffers).
* 2-D numpy arrays of shape (channels, samples) are `List (List _)`, one inner
  list per channel row.  A degenerate array with 0 rows loses its column
  count in this representation (numpy keeps the shape); theorems therefore
  assume at least one channel where the column count matters.
* `np.searchsorted(a, v, side)` is used by the source only on sorted `a`;
  there it returns the number of entries `≤ v` (side = right) respectively
  `< v` (side = left), which is how it is embedded here.
* `np.argsort` (an unstable quicksort) is determinized as a stable insertion
  sort on indices; every property proved below is insensitive to the
  tie-breaking order, and claims about ties are stated via an existential
  index rather than a particular permutation.
* Fancy-index assignment `a[:, inds] = b` writes columns sequentially, so a
  duplicated index keeps the last value, as numpy does.
* Negative scalar indices wrap modulo the length as in numpy (`npIdx`);
  out-of-range accesses, which raise in numpy, are total here via defaults.
-/

attribute [local semireducible] Rat.add Rat.mul Rat.inv Rat.sub Rat.ofScientific

/-- Python `a % b` on floats for `b > 0` (also `b * Int.fract (a / b)`). -/
def fmod (a b : ℚ) : ℚ := a - b * ((⌊a / b⌋ : ℤ) : ℚ)

/-- `int(np.ceil q)` for the nonnegative quantities it is applied to. -/
def ceilNat (q : ℚ) : ℕ := (⌈q⌉ : ℤ).toNat

/-- `np.searchsorted(a, v, side='right')` for sorted `a`: number of entries `≤ v`. -/
def ssRight (a : List ℚ) (v : ℚ) : ℕ := a.countP (fun x => decide (x ≤ v))

/-- `np.searchsorted(a, v, side='left')` for sorted `a`: number of entries `< v`. -/
def ssLeft (a : List ℚ) (v : ℚ) : ℕ := a.countP (fun x => decide (x < v))

/-- numpy index resolution: a possibly negative index wraps modulo `n`. -/
def npIdx (n : ℕ) (i : ℤ) : ℕ := (i % (n : ℤ)).toNat

/-- `np.arange(a, b)` over integers. -/
def intRange (a b : ℤ) : List ℤ := (List.range (b - a).toNat).map (fun k : ℕ => a + (k : ℤ))

/-- `l[-1]` (total, with default). -/
def lastD (l : List α) (d : α) : α := l.getD (l.length - 1) d

/-- `l[-n:]`. -/
def lastN (n : ℕ) (l : List α) : List α := l.drop (l.length - n)

/-- `l[-1] = v` in place; on an empty list this is a no-op (numpy raises). -/
def setLast (l : List α) (v : α) : List α := l.set (l.length - 1) v

/-- Boolean-mask selection `l[m]`. -/
def maskList (l : List α) (m : List Bool) : List α :=
  (l.zip m).filterMap (fun p => if p.2 then some p.1 else none)

/-- Fancy-index gather `l[re]`. -/
def reorder (re : List ℕ) (l : List α) (d : α) : List α := re.map (fun i => l.getD i d)

/-- Comparison of indices by the timestamps they point at. -/
def keyedLe (ts : List ℚ) (i j : ℕ) : Prop := ts.getD i 0 ≤ ts.getD j 0

instance (ts : List ℚ) : DecidableRel (keyedLe ts) :=
  fun i j => inferInstanceAs (Decidable (ts.getD i 0 ≤ ts.getD j 0))

/-- `np.argsort(ts)`: a permutation of `range ts.length` sorted by timestamp.
numpy's default quicksort is unstable; this determinization is stable. -/
def argsort (ts : List ℚ) : List ℕ := List.insertionSort (keyedLe ts) (List.range ts.length)

def listMinZ (l : List ℤ) : ℤ := l.foldl min (l.headD 0)
def listMaxZ (l : List ℤ) : ℤ := l.foldl max (l.headD 0)
def listMinQ (l : List ℚ) : ℚ := l.foldl min (l.headD 0)

/-- `np.maximum.accumulate` with a running maximum accumulator. -/
def cummax (c : ℕ) : List ℕ → List ℕ
  | [] => []
  | x :: xs => (max c x) :: cummax (max c x) xs

/-- A float-array cell: a number, the NaN sentinel, or an object-dtype string. -/
inductive Val where
  | num (q : ℚ)
  | nan
  | str (s : String)
deriving DecidableEq

def Val.add : Val → Val → Val
  | num a, num b => num (a + b)
  | _, _ => nan

def Val.sub : Val → Val → Val
  | num a, num b => num (a - b)
  | _, _ => nan

def Val.smul : Val → ℚ → Val
  | num a, q => num (a * q)
  | _, _ => nan

/-- `a.size` of a 2-D array. -/
def mSize (m : List (List α)) : ℕ := (m.map List.length).sum

/-- Column `j` of a (channels × samples) array: `a[:, j]`. -/
def colAt (m : List (List Val)) (j : ℕ) : List Val := m.map (fun row => row.getD j Val.nan)

/-- `a[:, j] = col`. -/
def setCol (m : List (List Val)) (j : ℕ) (col : List Val) : List (List Val) :=
  List.zipWith (fun row v => row.set j v) m col

/-- `a[:, inds] = vals`: columns are written sequentially (numpy fancy-index
assignment), so for a duplicated index the last value wins. -/
def assignCols : List (List Val) → List ℕ → List (List Val) → List (List Val)
  | m, [], _ => m
  | m, j :: js, vals =>
      assignCols (setCol m j (vals.map (fun r => r.getD 0 Val.nan))) js
        (vals.map (fun r => r.drop 1))

/-- Fancy-index gather of columns: `a[:, inds]`. -/
def gatherCols (m : List (List Val)) (inds : List ℕ) : List (List Val) :=
  m.map (fun row => inds.map (fun i => row.getD i Val.nan))

/-- `a[:, start:start+len(cols)] = cols` (plain slice assignment). -/
def sliceSetCols (m : List (List Val)) (start : ℕ) (cols : List (List Val)) : List (List Val) :=
  (cols.enum).foldl (fun acc p => setCol acc (start + p.1) p.2) m

/-- One row of the `chan_states` DataFrame: owning source and visibility. -/
structure ChanState where
  src : ℕ
  vis : Bool
deriving DecidableEq

/-- `chan_states['vis'].sum()`. -/
def visCount (cs : List ChanState) : ℕ := (cs.filter (·.vis)).length

/-! ## MergeLastOnlyBuffer -/

structure MergeLastOnlyBuffer where
  data : List (List ℚ)
  tvec : List ℚ
deriving DecidableEq

namespace MergeLastOnlyBuffer

/-- `MergeLastOnlyBuffer.reset(n_chans, t0=None)`. -/
def reset (_st : MergeLastOnlyBuffer) (nChans : ℕ) (t0 : Option ℚ) : MergeLastOnlyBuffer :=
  let nSamps := if t0.isSome then 1 else 0
  { data := List.replicate nChans (List.replicate nSamps (0 : ℚ)),
    tvec := match t0 with | some t => [t] | none => [] }

/-- `self._data[b_buff, -1] = vals`: the k-th masked row's last cell receives
the k-th value. -/
def maskSetLast : List (List ℚ) → List Bool → List ℚ → List (List ℚ)
  | rows, [], _ => rows
  | [], _, _ => []
  | r :: rows, false :: mask, vals => r :: maskSetLast rows mask vals
  | r :: rows, true :: mask, [] => r :: maskSetLast rows mask []
  | r :: rows, true :: mask, v :: vals => setLast r v :: maskSetLast rows mask vals

/-- `MergeLastOnlyBuffer.update(data, timestamps, chan_states, source_id)`.
`data` has one row per channel of `source_id` (in `chan_states` order) when
`source_id` is given, else one row per channel of `chan_states`. -/
def update (st : MergeLastOnlyBuffer) (data : List (List ℚ)) (timestamps : List ℚ)
    (chanStates : List ChanState) (sourceId : Option ℕ) : MergeLastOnlyBuffer :=
  if timestamps = [] then st else
  let re := argsort timestamps
  let ts := reorder re timestamps 0
  let d := data.map (fun row => reorder re row 0)
  let nVis := visCount chanStates
  let st1 := if mSize st.data = 0 ∨ st.data.length ≠ nVis then
      st.reset nVis (some (lastD ts 0)) else st
  let d2 := match sourceId with
    | some s =>
      let bBuff := (chanStates.filter (·.vis)).map (fun c => c.src == s)
      let srcRows := chanStates.filter (fun c => c.src == s)
      let vals := ((srcRows.zip d).filter (fun p => p.1.vis)).map (fun p => lastD p.2 0)
      maskSetLast st1.data bBuff vals
    | none =>
      let vals := ((chanStates.zip d).filter (fun p => p.1.vis)).map (fun p => lastD p.2 0)
      List.zipWith setLast st1.data vals
  { data := d2, tvec := setLast st1.tvec (lastD ts 0) }

end MergeLastOnlyBuffer

/-! ## TimeSeriesBuffer -/

/-- Buffering mode; the source compares `self._mode == "Sweep"`, every other
string scrolls, so two constructors capture the semantics. -/
inductive TSMode where
  | Scroll
  | Sweep
deriving DecidableEq

def IRREG_RATE_OVERRIDE : ℚ := 1000

structure TimeSeriesBuffer where
  mode : TSMode
  srate : Option ℚ
  duration : ℚ
  data : List (List Val)
  tvec : List ℚ
  markers : List Val
  markerTs : List ℚ
  writeIdx : ℕ
  extendWrite : Bool
deriving DecidableEq

namespace TimeSeriesBuffer

/-- `IRREG_RATE_OVERRIDE if self._srate == 0 else self._srate` (with the
unknown rate `None` totalised to `0`; the source would raise on it). -/
def effSrate (st : TimeSeriesBuffer) : ℚ :=
  if st.srate = some 0 then IRREG_RATE_OVERRIDE else st.srate.getD 0

/-- `self._data.shape[-1]` (see the 0-row caveat in the header comment). -/
def nCols (st : TimeSeriesBuffer) : ℕ := (st.data.headD []).length

/-- `ceil(effective_rate × duration)`: the capacity a reset allocates. -/
def capacity (st : TimeSeriesBuffer) : ℕ := ceilNat (st.effSrate * st.duration)

/-- `TimeSeriesBuffer._reset_tvec(t0)`. -/
def resetTvec (st : TimeSeriesBuffer) (t0opt : Option ℚ) : TimeSeriesBuffer :=
  match t0opt with
  | none => { st with tvec := [] }
  | some t0 =>
    let n := st.nCols
    let tNow := t0
    let srate := st.effSrate
    let tvec : List ℚ :=
      if st.mode = TSMode.Sweep then
        -- t0 -= t0 % duration; tvec = t0 + arange(n)/srate
        (List.range n).map (fun i : ℕ => (t0 - fmod t0 st.duration) + (i : ℚ) / srate)
      else
        -- tvec = t0 - arange(n)[::-1]/srate
        (List.range n).map (fun i : ℕ => t0 - ((n - 1 - i : ℕ) : ℚ) / srate)
    -- (searchsorted(tvec, t_now, 'right') - 1) % (n or np.inf)
    let wi : ℤ := (ssRight tvec tNow : ℤ) - 1
    { st with tvec := tvec, writeIdx := if n = 0 then wi.toNat else npIdx n wi }

/-- `TimeSeriesBuffer.reset(n_chans, t0, srate, duration)`.  Python's
`srate or self._srate` keeps the old rate when the argument is `None` or `0`,
likewise `duration or self._duration`. -/
def reset (st : TimeSeriesBuffer) (nChans : ℕ) (t0 : Option ℚ) (srateArg : Option ℚ)
    (durationArg : ℚ) : TimeSeriesBuffer :=
  let newSrate := match srateArg with
    | some s => if s = 0 then st.srate else some s
    | none => st.srate
  let newDur := if durationArg = 0 then st.duration else durationArg
  let st1 : TimeSeriesBuffer := { st with srate := newSrate, duration := newDur }
  let nSamps := ceilNat (st1.effSrate * st1.duration)
  let st2 : TimeSeriesBuffer :=
    { st1 with data := List.replicate nChans (List.replicate nSamps Val.nan) }
  st2.resetTvec t0

/-- `last_write_time` as computed at the top of `update`. -/
def lastWriteTime (st : TimeSeriesBuffer) : ℚ :=
  if st.mode = TSMode.Sweep then st.tvec.getD st.writeIdx 0 - 1 / st.effSrate
  else lastD st.tvec 0

/-- `TimeSeriesBuffer._insert_sweep(data, timestamps)`. -/
def insertSweep (st : TimeSeriesBuffer) (data : List (List Val)) (timestamps : List ℚ) :
    TimeSeriesBuffer :=
  if mSize data = 0 then st else
  let n := st.nCols
  let wInds : List ℤ := timestamps.map (fun t => (ssRight st.tvec t : ℤ) - 1)
  let d1 := assignCols st.data (wInds.map (npIdx n)) data
  -- skipped = setdiff1d(arange(w0, wLast+1), wInds): sorted, not in wInds
  let skipped : List ℤ :=
    (intRange (wInds.headD 0) (lastD wInds 0 + 1)).filter (fun i => decide (i ∉ wInds))
  let readInds : List ℕ := skipped.map (fun i => ssLeft timestamps (st.tvec.getD (npIdx n i) 0))
  let d2 := assignCols d1 (skipped.map (npIdx n)) (gatherCols data readInds)
  let overwritten := wInds ++ skipped
  let fo := listMinZ overwritten
  let d3 :=
    if (st.writeIdx : ℤ) < fo then
      let nInterp : ℤ := min fo (fo - (st.writeIdx : ℤ))
      let bef := colAt d2 (npIdx n (fo - nInterp - 1))
      let aft := colAt d2 (npIdx n fo)
      sliceSetCols d2 st.writeIdx ((intRange 1 (nInterp + 1)).map (fun k : ℤ =>
        List.zipWith (fun b a => Val.add b (Val.smul (Val.sub a b) ((k : ℚ) / ((nInterp : ℚ) + 1))))
          bef aft))
    else d2
  let newW := listMaxZ overwritten + 1
  -- if self._srate and new_write_idx >= len(self._tvec): re-anchor past the end
  if (¬ (st.srate = none ∨ st.srate = some 0)) ∧ (st.tvec.length : ℤ) ≤ newW then
    (TimeSeriesBuffer.resetTvec { st with data := d3 }
      (some (lastD st.tvec 0 + 1 / st.srate.getD 0)))
  else
    { st with data := d3, writeIdx := if n = 0 then newW.toNat else npIdx n newW }

/-- `n_fill_samples = int(np.ceil(elapsed * srate))` of the irregular-rate block. -/
def synthNFill (st : TimeSeriesBuffer) (ts : List ℚ) : ℕ :=
  ceilNat ((lastD ts 0 - st.lastWriteTime) * st.effSrate)

/-- `fill_tvec = last_write_time + (1 + arange(n_fill)) / srate`. -/
def synthFillTvec (st : TimeSeriesBuffer) (ts : List ℚ) : List ℚ :=
  (List.range (st.synthNFill ts)).map
    (fun k => st.lastWriteTime + ((1 + k : ℕ) : ℚ) / st.effSrate)

/-- `idx = np.searchsorted(fill_tvec, timestamps)` (side = left). -/
def synthIdx (st : TimeSeriesBuffer) (ts : List ℚ) : List ℕ :=
  ts.map (fun t => ssLeft (st.synthFillTvec ts) t)

/-- Irregular-rate synthesis (the `self._srate == 0` block of `update`):
returns the dense `(fill_data, fill_tvec)` replacing `(data, timestamps)`,
plus the `(_markers, _marker_ts)` placeholders. -/
def synthIrregular (st : TimeSeriesBuffer) (data : List (List Val)) (ts : List ℚ)
    (numericDtype : Bool) : List (List Val) × List ℚ × List Val × List ℚ :=
  let nFill := st.synthNFill ts
  let fillTvec := st.synthFillTvec ts
  let idx := st.synthIdx ts
  if numericDtype then
    let fd1 := assignCols (List.replicate data.length (List.replicate nFill (Val.num 0))) idx data
    let fd2 := if 0 < idx.headD 0 then setCol fd1 0 (colAt st.data (st.writeIdx - 1)) else fd1
    let prev := cummax 0 (idx.foldl (fun acc j => acc.set j j) (List.replicate nFill 0))
    (gatherCols fd2 prev, fillTvec, [], [])
  else
    let fd1 := assignCols (List.replicate data.length (List.replicate nFill (Val.num 0))) idx
      (List.replicate data.length (List.replicate idx.length (Val.num 1)))
    (fd1, fillTvec, data.headD [], ts)

/-- Age-based marker pruning and append (lines guarded by `np.any(_marker_ts)`). -/
def pruneAppendMarkers (st : TimeSeriesBuffer) (mks : List Val) (mkts : List ℚ) :
    TimeSeriesBuffer :=
  let keep := st.markerTs.map (fun t => decide (¬ (st.duration < listMinQ mkts - t)))
  { st with markerTs := maskList st.markerTs keep ++ mkts,
            markers := maskList st.markers keep ++ mks }

/-- The `indicate_write_index` NaN blanking ahead of the cursor. -/
def extendWriteMark (st : TimeSeriesBuffer) : TimeSeriesBuffer :=
  let n := st.nCols
  let nWriteAhead : ℕ :=
    if n ≤ 2 then 0
    else if 0 < st.srate.getD 0 then max 1 (n / 100)
    else 1
  let leadIdx := (List.range nWriteAhead).map (fun k => (st.writeIdx + k) % n)
  if leadIdx.any (fun i => decide (i ≠ 0)) then
    { st with data := leadIdx.foldl (fun acc j => setCol acc j (List.replicate acc.length Val.nan)) st.data }
  else st

/-- The final write phase of `update`: Scroll shift-and-append, or the Sweep
current/wrapped split, write-cursor blanking and marker pruning. -/
def writeChunk (st : TimeSeriesBuffer) (data : List (List Val)) (ts : List ℚ)
    (mks : List Val) (mkts : List ℚ) : TimeSeriesBuffer :=
  if st.mode ≠ TSMode.Sweep then
    let n := ts.length
    { st with
      data := st.data.mapIdx (fun i bufRow => bufRow.drop n ++ lastN n (data.getD i [])),
      tvec := st.tvec.drop n ++ lastN n ts }
  else
    let wrap := ts.map (fun t => decide (lastD st.tvec 0 + 1 / st.effSrate < t))
    let st1 := if (wrap.map not).any id then
        st.insertSweep (data.map (fun r => maskList r (wrap.map not))) (maskList ts (wrap.map not))
      else st
    let st2 := if wrap.any id then
        (st1.resetTvec (some ((maskList ts wrap).headD 0))).insertSweep
          (data.map (fun r => maskList r wrap)) (maskList ts wrap)
      else st1
    let st3 := if st2.extendWrite then st2.extendWriteMark else st2
    if mkts.any (fun t => decide (t ≠ 0)) then st3.pruneAppendMarkers mks mkts else st3

/-- Overflow recovery (`timestamps.size > n_buffer_samples`) followed by the
write phase. -/
def postSynth (st : TimeSeriesBuffer) (data : List (List Val)) (ts : List ℚ) (nVis : ℕ)
    (mks : List Val) (mkts : List ℚ) : TimeSeriesBuffer :=
  let nBuf := st.nCols
  if nBuf < ts.length then
    (st.reset nVis (some ((lastN nBuf ts).headD 0)) none 0).writeChunk
      (data.map (lastN nBuf)) (lastN nBuf ts) mks mkts
  else st.writeChunk data ts mks mkts

/-- `update` after hidden-channel dropping and the joint timestamp sort:
first-data tvec initialisation, stale-sample filtering, irregular-rate
synthesis, then overflow recovery and the write phase. -/
def updateSorted (st0 : TimeSeriesBuffer) (data : List (List Val)) (ts : List ℚ) (nVis : ℕ)
    (ignoreOld : Bool) (numericDtype : Bool) : TimeSeriesBuffer :=
  let st := if st0.tvec.length = 0 then st0.resetTvec (some (ts.headD 0 - 1 / st0.effSrate))
            else st0
  let keep := ts.map (fun t => decide (st.lastWriteTime < t))
  if ignoreOld ∧ ¬ keep.any id then st else
  let ts1 := if ignoreOld then maskList ts keep else ts
  let data1 := if ignoreOld then data.map (fun r => maskList r keep) else data
  if st.srate = some 0 then
    let s := st.synthIrregular data1 ts1 numericDtype
    st.postSynth s.1 s.2.1 nVis s.2.2.1 s.2.2.2
  else
    st.postSynth data1 ts1 nVis [] []

/-- `TimeSeriesBuffer.update(data, timestamps, chan_states, ignore_old)`
(`source_id` is an unused parameter in the source).  `numericDtype` mirrors
`np.issubdtype(data.dtype, np.number)`. -/
def update (st : TimeSeriesBuffer) (data0 : List (List Val)) (timestamps0 : List ℚ)
    (chanStates : List ChanState) (ignoreOld : Bool) (numericDtype : Bool) : TimeSeriesBuffer :=
  if timestamps0 = [] then st else
  st.updateSorted
    ((maskList data0 (chanStates.map (·.vis))).map (fun r => reorder (argsort timestamps0) r Val.nan))
    (reorder (argsort timestamps0) timestamps0 0)
    (visCount chanStates) ignoreOld numericDtype

/-- The `contents` property. -/
def contents (st : TimeSeriesBuffer) :
    (List (List Val) × List Val) × (List ℚ × List ℚ) :=
  ((st.data, st.markers), (st.tvec, st.markerTs))

end TimeSeriesBuffer

/-! ## Supporting lemmas: list helpers -/

theorem reorder_range (l : List α) (d : α) : reorder (List.range l.length) l d = l := by
  apply List.ext_getElem
  · simp [reorder]
  · intro i h1 h2
    simp only [reorder, List.getElem_map, List.getElem_range]
    exact List.getD_eq_getElem l d h2

theorem argsort_perm (ts : List ℚ) : (argsort ts).Perm (List.range ts.length) :=
  List.perm_insertionSort _ _

theorem argsort_length (ts : List ℚ) : (argsort ts).length = ts.length := by
  simpa using (argsort_perm ts).length_eq

theorem argsort_mem_lt {ts : List ℚ} {i : ℕ} (h : i ∈ argsort ts) : i < ts.length := by
  simpa [List.mem_range] using (argsort_perm ts).mem_iff.mp h

theorem argsort_sorted (ts : List ℚ) : List.Sorted (keyedLe ts) (argsort ts) := by
  haveI : IsTotal ℕ (keyedLe ts) := ⟨fun a b => le_total (ts.getD a 0) (ts.getD b 0)⟩
  haveI : IsTrans ℕ (keyedLe ts) :=
    ⟨fun a b c hab hbc => le_trans (α := ℚ) hab hbc⟩
  exact List.sorted_insertionSort _ _

theorem reorder_argsort_perm (ts : List ℚ) : (reorder (argsort ts) ts 0).Perm ts := by
  have h2 := (argsort_perm ts).map (fun i => ts.getD i 0)
  rw [show (List.range ts.length).map (fun i => ts.getD i 0) = ts from reorder_range ts 0] at h2
  exact h2

theorem mem_reorder_argsort {ts : List ℚ} {x : ℚ} (h : x ∈ reorder (argsort ts) ts 0) :
    x ∈ ts :=
  (reorder_argsort_perm ts).mem_iff.mp h

theorem reorder_argsort_pairwise (ts : List ℚ) :
    (reorder (argsort ts) ts 0).Pairwise (· ≤ ·) := by
  have h := argsort_sorted ts
  exact List.pairwise_map.mpr h

theorem sorted_range_keyedLe {ts : List ℚ} (h : ts.Pairwise (· ≤ ·)) :
    List.Sorted (keyedLe ts) (List.range ts.length) := by
  have hr : (List.range ts.length).Pairwise (· < ·) := List.pairwise_lt_range _
  refine hr.imp_of_mem ?_
  intro a b ha hb hab
  have hb' : b < ts.length := List.mem_range.mp hb
  have ha' : a < ts.length := List.mem_range.mp ha
  have h2 := List.pairwise_iff_getElem.mp h a b ha' hb' hab
  show ts.getD a 0 ≤ ts.getD b 0
  rw [List.getD_eq_getElem ts 0 ha', List.getD_eq_getElem ts 0 hb']
  exact h2

theorem argsort_of_sorted {ts : List ℚ} (h : ts.Pairwise (· ≤ ·)) :
    argsort ts = List.range ts.length :=
  List.Sorted.insertionSort_eq (sorted_range_keyedLe h)

@[simp] theorem maskList_nil_left (m : List Bool) : maskList ([] : List α) m = [] := by
  simp [maskList]

@[simp] theorem maskList_nil_right (l : List α) : maskList l [] = [] := by
  simp [maskList]

theorem maskList_cons (a : α) (l : List α) (b : Bool) (m : List Bool) :
    maskList (a :: l) (b :: m) = if b then a :: maskList l m else maskList l m := by
  cases b <;> simp [maskList]

theorem maskList_sublist (l : List α) (m : List Bool) : (maskList l m).Sublist l := by
  induction l generalizing m with
  | nil => simp
  | cons a l ih =>
    cases m with
    | nil => simp
    | cons b m =>
      rw [maskList_cons]
      cases b with
      | true => simpa using (ih m).cons₂ a
      | false => simpa using (ih m).cons a

theorem maskList_map_true (l : List α) (ts : List β) (p : β → Bool)
    (hlen : l.length = ts.length) (h : ∀ t ∈ ts, p t = true) :
    maskList l (ts.map p) = l := by
  induction l generalizing ts with
  | nil => simp
  | cons a l ih =>
    cases ts with
    | nil => simp at hlen
    | cons t ts =>
      have ht := h t (by simp)
      simp only [List.map_cons, maskList_cons, ht, if_true]
      rw [ih ts (by simpa using hlen) (fun x hx => h x (by simp [hx]))]

theorem mem_maskList_map {l : List α} {p : α → Bool} {x : α}
    (h : x ∈ maskList l (l.map p)) : x ∈ l ∧ p x = true := by
  induction l with
  | nil => simp at h
  | cons a l ih =>
    simp only [List.map_cons, maskList_cons] at h
    by_cases hp : p a
    · simp only [hp, if_true, List.mem_cons] at h
      rcases h with h | h
      · exact ⟨by simp [h], h ▸ hp⟩
      · rcases ih h with ⟨h1, h2⟩; exact ⟨by simp [h1], h2⟩
    · simp only [hp, if_false] at h
      rcases ih h with ⟨h1, h2⟩; exact ⟨by simp [h1], h2⟩

theorem maskList_length_congr {α β : Type} {l : List α} {l' : List β} {m : List Bool}
    (h : l.length = l'.length) : (maskList l m).length = (maskList l' m).length := by
  induction m generalizing l l' with
  | nil => simp
  | cons b m ih =>
    cases l with
    | nil => cases l' with
      | nil => rfl
      | cons a' l' => simp at h
    | cons a l =>
      cases l' with
      | nil => simp at h
      | cons a' l' =>
        rw [maskList_cons, maskList_cons]
        cases b with
        | true =>
          simp only [if_true, List.length_cons]
          exact congrArg Nat.succ (ih (by simpa using h))
        | false =>
          rw [if_neg Bool.false_ne_true, if_neg Bool.false_ne_true]
          exact ih (by simpa using h)

theorem lastN_length_of_le {n : ℕ} {l : List α} (h : n ≤ l.length) :
    (lastN n l).length = n := by
  simp [lastN]; omega

theorem lastN_of_length_le {n : ℕ} {l : List α} (h : l.length ≤ n) : lastN n l = l := by
  simp [lastN, Nat.sub_eq_zero_of_le h]

theorem pairwise_forall_le_lastD {l : List ℚ} (h : l.Pairwise (· ≤ ·)) (d : ℚ) :
    ∀ x ∈ l, x ≤ lastD l d := by
  induction l with
  | nil => simp
  | cons a l ih =>
    rcases List.pairwise_cons.mp h with ⟨ha, hl⟩
    intro x hx
    rcases List.mem_cons.mp hx with rfl | hx'
    · cases l with
      | nil => simp [lastD]
      | cons b t =>
        calc x ≤ b := ha b (by simp)
          _ ≤ lastD (b :: t) d := ih hl b (by simp)
          _ = lastD (x :: b :: t) d := by simp [lastD]
    · cases l with
      | nil => simp at hx'
      | cons b t =>
        have h2 := ih hl x hx'
        simpa [lastD] using h2

/-! ## Supporting lemmas: field preservation through the buffer operations -/

namespace TimeSeriesBuffer

@[simp] theorem resetTvec_mode (st : TimeSeriesBuffer) (t0 : Option ℚ) :
    (st.resetTvec t0).mode = st.mode := by cases t0 <;> rfl

@[simp] theorem resetTvec_srate (st : TimeSeriesBuffer) (t0 : Option ℚ) :
    (st.resetTvec t0).srate = st.srate := by cases t0 <;> rfl

@[simp] theorem resetTvec_duration (st : TimeSeriesBuffer) (t0 : Option ℚ) :
    (st.resetTvec t0).duration = st.duration := by cases t0 <;> rfl

@[simp] theorem resetTvec_data (st : TimeSeriesBuffer) (t0 : Option ℚ) :
    (st.resetTvec t0).data = st.data := by cases t0 <;> rfl

@[simp] theorem resetTvec_markers (st : TimeSeriesBuffer) (t0 : Option ℚ) :
    (st.resetTvec t0).markers = st.markers := by cases t0 <;> rfl

@[simp] theorem resetTvec_markerTs (st : TimeSeriesBuffer) (t0 : Option ℚ) :
    (st.resetTvec t0).markerTs = st.markerTs := by cases t0 <;> rfl

@[simp] theorem resetTvec_extendWrite (st : TimeSeriesBuffer) (t0 : Option ℚ) :
    (st.resetTvec t0).extendWrite = st.extendWrite := by cases t0 <;> rfl

@[simp] theorem reset_mode (st : TimeSeriesBuffer) (n : ℕ) (t0 sA : Option ℚ) (dA : ℚ) :
    (st.reset n t0 sA dA).mode = st.mode := by
  simp [reset]

@[simp] theorem reset_markers (st : TimeSeriesBuffer) (n : ℕ) (t0 sA : Option ℚ) (dA : ℚ) :
    (st.reset n t0 sA dA).markers = st.markers := by
  simp [reset]

@[simp] theorem reset_markerTs (st : TimeSeriesBuffer) (n : ℕ) (t0 sA : Option ℚ) (dA : ℚ) :
    (st.reset n t0 sA dA).markerTs = st.markerTs := by
  simp [reset]

@[simp] theorem reset_extendWrite (st : TimeSeriesBuffer) (n : ℕ) (t0 sA : Option ℚ) (dA : ℚ) :
    (st.reset n t0 sA dA).extendWrite = st.extendWrite := by
  simp [reset]

@[simp] theorem reset_srate_keep (st : TimeSeriesBuffer) (n : ℕ) (t0 : Option ℚ) :
    (st.reset n t0 none 0).srate = st.srate := by
  simp [reset]

@[simp] theorem reset_duration_keep (st : TimeSeriesBuffer) (n : ℕ) (t0 : Option ℚ) :
    (st.reset n t0 none 0).duration = st.duration := by
  simp [reset]

@[simp] theorem reset_data (st : TimeSeriesBuffer) (n : ℕ) (t0 sA : Option ℚ) (dA : ℚ) :
    (st.reset n t0 sA dA).data =
      List.replicate n (List.replicate
        (ceilNat (({ st with
          srate := match sA with | some s => if s = 0 then st.srate else some s | none => st.srate,
          duration := if dA = 0 then st.duration else dA } : TimeSeriesBuffer).effSrate *
          (if dA = 0 then st.duration else dA))) Val.nan) := by
  cases sA <;> simp [reset]

@[simp] theorem insertSweep_mode (st : TimeSeriesBuffer) (d : List (List Val)) (ts : List ℚ) :
    (st.insertSweep d ts).mode = st.mode := by
  simp only [insertSweep]
  repeat' split
  all_goals simp

@[simp] theorem insertSweep_srate (st : TimeSeriesBuffer) (d : List (List Val)) (ts : List ℚ) :
    (st.insertSweep d ts).srate = st.srate := by
  simp only [insertSweep]
  repeat' split
  all_goals simp

@[simp] theorem insertSweep_duration (st : TimeSeriesBuffer) (d : List (List Val)) (ts : List ℚ) :
    (st.insertSweep d ts).duration = st.duration := by
  simp only [insertSweep]
  repeat' split
  all_goals simp

@[simp] theorem insertSweep_markers (st : TimeSeriesBuffer) (d : List (List Val)) (ts : List ℚ) :
    (st.insertSweep d ts).markers = st.markers := by
  simp only [insertSweep]
  repeat' split
  all_goals simp

@[simp] theorem insertSweep_markerTs (st : TimeSeriesBuffer) (d : List (List Val)) (ts : List ℚ) :
    (st.insertSweep d ts).markerTs = st.markerTs := by
  simp only [insertSweep]
  repeat' split
  all_goals simp

@[simp] theorem insertSweep_extendWrite (st : TimeSeriesBuffer) (d : List (List Val)) (ts : List ℚ) :
    (st.insertSweep d ts).extendWrite = st.extendWrite := by
  simp only [insertSweep]
  repeat' split
  all_goals simp

@[simp] theorem extendWriteMark_mode (st : TimeSeriesBuffer) :
    (st.extendWriteMark).mode = st.mode := by
  simp only [extendWriteMark]
  repeat' split
  all_goals rfl

@[simp] theorem extendWriteMark_srate (st : TimeSeriesBuffer) :
    (st.extendWriteMark).srate = st.srate := by
  simp only [extendWriteMark]
  repeat' split
  all_goals rfl

@[simp] theorem extendWriteMark_duration (st : TimeSeriesBuffer) :
    (st.extendWriteMark).duration = st.duration := by
  simp only [extendWriteMark]
  repeat' split
  all_goals rfl

@[simp] theorem extendWriteMark_markers (st : TimeSeriesBuffer) :
    (st.extendWriteMark).markers = st.markers := by
  simp only [extendWriteMark]
  repeat' split
  all_goals rfl

@[simp] theorem extendWriteMark_markerTs (st : TimeSeriesBuffer) :
    (st.extendWriteMark).markerTs = st.markerTs := by
  simp only [extendWriteMark]
  repeat' split
  all_goals rfl

@[simp] theorem extendWriteMark_extendWrite (st : TimeSeriesBuffer) :
    (st.extendWriteMark).extendWrite = st.extendWrite := by
  simp only [extendWriteMark]
  repeat' split
  all_goals rfl

@[simp] theorem pruneAppendMarkers_mode (st : TimeSeriesBuffer) (mks : List Val) (mkts : List ℚ) :
    (st.pruneAppendMarkers mks mkts).mode = st.mode := rfl

@[simp] theorem pruneAppendMarkers_srate (st : TimeSeriesBuffer) (mks : List Val) (mkts : List ℚ) :
    (st.pruneAppendMarkers mks mkts).srate = st.srate := rfl

@[simp] theorem pruneAppendMarkers_duration (st : TimeSeriesBuffer) (mks : List Val) (mkts : List ℚ) :
    (st.pruneAppendMarkers mks mkts).duration = st.duration := rfl

@[simp] theorem pruneAppendMarkers_data (st : TimeSeriesBuffer) (mks : List Val) (mkts : List ℚ) :
    (st.pruneAppendMarkers mks mkts).data = st.data := rfl

@[simp] theorem pruneAppendMarkers_tvec (st : TimeSeriesBuffer) (mks : List Val) (mkts : List ℚ) :
    (st.pruneAppendMarkers mks mkts).tvec = st.tvec := rfl

theorem writeChunk_scroll (st : TimeSeriesBuffer) (d : List (List Val)) (ts : List ℚ)
    (mks : List Val) (mkts : List ℚ) (h : st.mode = TSMode.Scroll) :
    st.writeChunk d ts mks mkts =
      { st with
        data := st.data.mapIdx (fun i bufRow => bufRow.drop ts.length ++ lastN ts.length (d.getD i [])),
        tvec := st.tvec.drop ts.length ++ lastN ts.length ts } := by
  rw [writeChunk, if_pos (by simp [h])]

end TimeSeriesBuffer

namespace TimeSeriesBuffer

@[simp] theorem writeChunk_mode (st : TimeSeriesBuffer) (d : List (List Val)) (ts : List ℚ)
    (mks : List Val) (mkts : List ℚ) : (st.writeChunk d ts mks mkts).mode = st.mode := by
  simp only [writeChunk]
  repeat' split
  all_goals simp

@[simp] theorem writeChunk_srate (st : TimeSeriesBuffer) (d : List (List Val)) (ts : List ℚ)
    (mks : List Val) (mkts : List ℚ) : (st.writeChunk d ts mks mkts).srate = st.srate := by
  simp only [writeChunk]
  repeat' split
  all_goals simp

@[simp] theorem writeChunk_duration (st : TimeSeriesBuffer) (d : List (List Val)) (ts : List ℚ)
    (mks : List Val) (mkts : List ℚ) : (st.writeChunk d ts mks mkts).duration = st.duration := by
  simp only [writeChunk]
  repeat' split
  all_goals simp

@[simp] theorem postSynth_mode (st : TimeSeriesBuffer) (d : List (List Val)) (ts : List ℚ)
    (nVis : ℕ) (mks : List Val) (mkts : List ℚ) :
    (st.postSynth d ts nVis mks mkts).mode = st.mode := by
  simp only [postSynth]
  split <;> simp

@[simp] theorem postSynth_srate (st : TimeSeriesBuffer) (d : List (List Val)) (ts : List ℚ)
    (nVis : ℕ) (mks : List Val) (mkts : List ℚ) :
    (st.postSynth d ts nVis mks mkts).srate = st.srate := by
  simp only [postSynth]
  split <;> simp

@[simp] theorem postSynth_duration (st : TimeSeriesBuffer) (d : List (List Val)) (ts : List ℚ)
    (nVis : ℕ) (mks : List Val) (mkts : List ℚ) :
    (st.postSynth d ts nVis mks mkts).duration = st.duration := by
  simp only [postSynth]
  split <;> simp

@[simp] theorem updateSorted_mode (st : TimeSeriesBuffer) (d : List (List Val)) (ts : List ℚ)
    (nVis : ℕ) (io nd : Bool) : (st.updateSorted d ts nVis io nd).mode = st.mode := by
  simp only [updateSorted]
  repeat' split
  all_goals simp

@[simp] theorem updateSorted_srate (st : TimeSeriesBuffer) (d : List (List Val)) (ts : List ℚ)
    (nVis : ℕ) (io nd : Bool) : (st.updateSorted d ts nVis io nd).srate = st.srate := by
  simp only [updateSorted]
  repeat' split
  all_goals simp

@[simp] theorem updateSorted_duration (st : TimeSeriesBuffer) (d : List (List Val)) (ts : List ℚ)
    (nVis : ℕ) (io nd : Bool) : (st.updateSorted d ts nVis io nd).duration = st.duration := by
  simp only [updateSorted]
  repeat' split
  all_goals simp

@[simp] theorem update_mode (st : TimeSeriesBuffer) (d : List (List Val)) (ts : List ℚ)
    (cs : List ChanState) (io nd : Bool) : (st.update d ts cs io nd).mode = st.mode := by
  simp only [update]
  split <;> simp

@[simp] theorem update_srate (st : TimeSeriesBuffer) (d : List (List Val)) (ts : List ℚ)
    (cs : List ChanState) (io nd : Bool) : (st.update d ts cs io nd).srate = st.srate := by
  simp only [update]
  split <;> simp

@[simp] theorem update_duration (st : TimeSeriesBuffer) (d : List (List Val)) (ts : List ℚ)
    (cs : List ChanState) (io nd : Bool) : (st.update d ts cs io nd).duration = st.duration := by
  simp only [update]
  split <;> simp

theorem writeChunk_markers_of_scroll (st : TimeSeriesBuffer) (d : List (List Val)) (ts : List ℚ)
    (mks : List Val) (mkts : List ℚ) (h : st.mode = TSMode.Scroll) :
    (st.writeChunk d ts mks mkts).markers = st.markers := by
  rw [writeChunk_scroll st d ts mks mkts h]

theorem writeChunk_markerTs_of_scroll (st : TimeSeriesBuffer) (d : List (List Val)) (ts : List ℚ)
    (mks : List Val) (mkts : List ℚ) (h : st.mode = TSMode.Scroll) :
    (st.writeChunk d ts mks mkts).markerTs = st.markerTs := by
  rw [writeChunk_scroll st d ts mks mkts h]

theorem postSynth_markers_of_scroll (st : TimeSeriesBuffer) (d : List (List Val)) (ts : List ℚ)
    (nVis : ℕ) (mks : List Val) (mkts : List ℚ) (h : st.mode = TSMode.Scroll) :
    (st.postSynth d ts nVis mks mkts).markers = st.markers := by
  simp only [postSynth]
  split
  · rw [writeChunk_markers_of_scroll _ _ _ _ _ (by simp [h])]
    simp
  · exact writeChunk_markers_of_scroll _ _ _ _ _ h

theorem postSynth_markerTs_of_scroll (st : TimeSeriesBuffer) (d : List (List Val)) (ts : List ℚ)
    (nVis : ℕ) (mks : List Val) (mkts : List ℚ) (h : st.mode = TSMode.Scroll) :
    (st.postSynth d ts nVis mks mkts).markerTs = st.markerTs := by
  simp only [postSynth]
  split
  · rw [writeChunk_markerTs_of_scroll _ _ _ _ _ (by simp [h])]
    simp
  · exact writeChunk_markerTs_of_scroll _ _ _ _ _ h

theorem updateSorted_markers_of_scroll (st : TimeSeriesBuffer) (d : List (List Val)) (ts : List ℚ)
    (nVis : ℕ) (io nd : Bool) (h : st.mode = TSMode.Scroll) :
    (st.updateSorted d ts nVis io nd).markers = st.markers := by
  simp only [updateSorted]
  repeat' split
  all_goals
    first
    | (rw [postSynth_markers_of_scroll _ _ _ _ _ _ (by simp [h])]; try simp)
    | simp

theorem updateSorted_markerTs_of_scroll (st : TimeSeriesBuffer) (d : List (List Val)) (ts : List ℚ)
    (nVis : ℕ) (io nd : Bool) (h : st.mode = TSMode.Scroll) :
    (st.updateSorted d ts nVis io nd).markerTs = st.markerTs := by
  simp only [updateSorted]
  repeat' split
  all_goals
    first
    | (rw [postSynth_markerTs_of_scroll _ _ _ _ _ _ (by simp [h])]; try simp)
    | simp

end TimeSeriesBuffer

/-! ## Claims -/

/-- C9 counterexample: with its default `t0 = None`, `MergeLastOnlyBuffer.reset(2)`
allocates a 0-sample-wide buffer `[[], []]`, not the claimed all-zero
1-sample-wide `(2, 1)` buffer. -/
theorem c9_counterexample :
    (MergeLastOnlyBuffer.reset ⟨[], []⟩ 2 none).data = [([] : List ℚ), []] ∧
    ¬ (MergeLastOnlyBuffer.reset ⟨[], []⟩ 2 none).data = [[(0 : ℚ)], [0]] := by
  constructor <;> decide

/-- C9 (amended): `reset(n_channels, t0)` with a non-None `t0` allocates the
all-zero 1-sample-wide `(n_channels, 1)` buffer and seeds `tvec = [t0]`; with
the default `t0 = None` it allocates an empty `(n_channels, 0)` buffer with an
empty `tvec`. -/
theorem c9_reset_shape (st : MergeLastOnlyBuffer) (n : ℕ) (t : ℚ) :
    (st.reset n (some t)).data = List.replicate n [(0 : ℚ)] ∧
    (st.reset n (some t)).tvec = [t] ∧
    (st.reset n none).data = List.replicate n ([] : List ℚ) ∧
    (st.reset n none).tvec = [] := by
  refine ⟨?_, rfl, ?_, rfl⟩ <;> simp [MergeLastOnlyBuffer.reset]

/-- C10: in Scroll mode `TimeSeriesBuffer.update` never modifies the stored
marker or marker-timestamp arrays: the `(text, timestamp)` pairs collected
during irregular-rate synthesis of a non-numeric stream are appended to the
persistent lists only in the Sweep branch, so a Scroll-mode call discards
them. -/
theorem c10_scroll_markers_untouched (st : TimeSeriesBuffer) (d : List (List Val)) (ts : List ℚ)
    (cs : List ChanState) (io nd : Bool) (h : st.mode = TSMode.Scroll) :
    (st.update d ts cs io nd).markers = st.markers ∧
    (st.update d ts cs io nd).markerTs = st.markerTs := by
  simp only [TimeSeriesBuffer.update]
  split
  · exact ⟨rfl, rfl⟩
  · exact ⟨TimeSeriesBuffer.updateSorted_markers_of_scroll _ _ _ _ _ _ h,
      TimeSeriesBuffer.updateSorted_markerTs_of_scroll _ _ _ _ _ _ h⟩

/-- C10 witness: a Scroll-mode irregular (rate-0) buffer fed one non-numeric
marker sample keeps its marker lists unchanged. -/
theorem c10_witness :
    (⟨TSMode.Scroll, some 0, 1, [[Val.num 0]], [0], [], [], 0, false⟩ :
      TimeSeriesBuffer).mode = TSMode.Scroll ∧
    (((⟨TSMode.Scroll, some 0, 1, [[Val.num 0]], [0], [], [], 0, false⟩ :
        TimeSeriesBuffer).update [[Val.str "A"]] [1/1000] [⟨0, true⟩] true false).markers =
      (⟨TSMode.Scroll, some 0, 1, [[Val.num 0]], [0], [], [], 0, false⟩ :
        TimeSeriesBuffer).markers ∧
     ((⟨TSMode.Scroll, some 0, 1, [[Val.num 0]], [0], [], [], 0, false⟩ :
        TimeSeriesBuffer).update [[Val.str "A"]] [1/1000] [⟨0, true⟩] true false).markerTs =
      (⟨TSMode.Scroll, some 0, 1, [[Val.num 0]], [0], [], [], 0, false⟩ :
        TimeSeriesBuffer).markerTs) :=
  ⟨rfl, c10_scroll_markers_untouched _ _ _ _ _ _ rfl⟩

/-- C6: `update` with an empty timestamps array returns with the buffer state
entirely unchanged; and with `ignore_old = True`, incoming samples with
timestamp `≤ last_write_time` are discarded, so when every incoming timestamp
is stale the call returns with the state entirely unchanged. -/
theorem c6_empty_and_stale_noop :
    (∀ (st : TimeSeriesBuffer) (d : List (List Val)) (cs : List ChanState) (io nd : Bool),
      st.update d [] cs io nd = st) ∧
    (∀ (st : TimeSeriesBuffer) (d : List (List Val)) (ts : List ℚ) (cs : List ChanState)
      (nd : Bool), st.tvec ≠ [] → (∀ t ∈ ts, t ≤ st.lastWriteTime) →
      st.update d ts cs true nd = st) := by
  constructor
  · intro st d cs io nd
    simp [TimeSeriesBuffer.update]
  · intro st d ts cs nd htv hstale
    by_cases hts : ts = []
    · subst hts; simp [TimeSeriesBuffer.update]
    · simp only [TimeSeriesBuffer.update]
      rw [if_neg hts]
      have hkeep : ((reorder (argsort ts) ts 0).map
          (fun t => decide (st.lastWriteTime < t))).any id = false := by
        rw [List.any_eq_false]
        intro b hb
        simp only [List.mem_map] at hb
        rcases hb with ⟨t, ht, rfl⟩
        have hle : t ≤ st.lastWriteTime := hstale t (mem_reorder_argsort ht)
        simpa using not_lt.mpr hle
      simp only [TimeSeriesBuffer.updateSorted, List.length_eq_zero, htv, if_false, hkeep]
      simp

/-- C6 witness: a Scroll buffer whose `last_write_time` is 5 is untouched by an
update whose timestamps all lie at or before 5. -/
theorem c6_witness :
    (⟨TSMode.Scroll, some 1, 1, [[Val.num 3]], [5], [], [], 0, false⟩ :
      TimeSeriesBuffer).tvec ≠ [] ∧
    (∀ t ∈ [(1 : ℚ), 5], t ≤ (⟨TSMode.Scroll, some 1, 1, [[Val.num 3]], [5], [], [], 0, false⟩ :
      TimeSeriesBuffer).lastWriteTime) ∧
    (⟨TSMode.Scroll, some 1, 1, [[Val.num 3]], [5], [], [], 0, false⟩ :
      TimeSeriesBuffer).update [[Val.num 7, Val.num 8]] [1, 5] [⟨0, true⟩] true true =
      ⟨TSMode.Scroll, some 1, 1, [[Val.num 3]], [5], [], [], 0, false⟩ :=
  ⟨by decide, by decide, c6_empty_and_stale_noop.2 _ _ _ _ _ (by decide) (by decide)⟩

/-! ## Supporting lemmas: fmod, ceilNat, searchsorted counting -/

theorem fmod_nonneg {a b : ℚ} (hb : 0 < b) : 0 ≤ fmod a b := by
  have h := Int.floor_le (a / b)
  have : (⌊a / b⌋ : ℚ) * b ≤ (a / b) * b :=
    mul_le_mul_of_nonneg_right h hb.le
  rw [div_mul_cancel₀ a hb.ne'] at this
  unfold fmod
  nlinarith

theorem fmod_lt {a b : ℚ} (hb : 0 < b) : fmod a b < b := by
  have h := Int.lt_floor_add_one (a / b)
  have : (a / b) * b < (⌊a / b⌋ + 1 : ℚ) * b :=
    mul_lt_mul_of_pos_right h hb
  rw [div_mul_cancel₀ a hb.ne'] at this
  unfold fmod
  nlinarith

theorem le_ceilNat {q : ℚ} (h : 0 ≤ q) : q ≤ (ceilNat q : ℚ) := by
  unfold ceilNat
  have h1 : q ≤ (⌈q⌉ : ℚ) := Int.le_ceil q
  have h2 : (0 : ℤ) ≤ ⌈q⌉ := Int.ceil_nonneg h
  have h3 : ((⌈q⌉.toNat : ℕ) : ℚ) = ((⌈q⌉ : ℤ) : ℚ) := by
    exact_mod_cast congrArg (fun z : ℤ => (z : ℚ)) (Int.toNat_of_nonneg h2)
  rw [h3]
  exact h1

theorem countP_range_le (n k : ℕ) :
    (List.range n).countP (fun i => decide (i ≤ k)) = min n (k + 1) := by
  induction n with
  | zero => simp
  | succ n ih =>
    rw [List.range_succ, List.countP_append, ih]
    simp only [List.countP_cons, List.countP_nil]
    by_cases h : n ≤ k
    · simp only [h, decide_eq_true_eq, if_true]
      simp [h]
      omega
    · simp [h]
      omega


theorem countP_congr_mem {α : Type} {l : List α} {p q : α → Bool}
    (h : ∀ a ∈ l, p a = q a) : l.countP p = l.countP q := by
  induction l with
  | nil => simp
  | cons a l ih =>
    rw [List.countP_cons, List.countP_cons, h a (by simp),
      ih (fun b hb => h b (by simp [hb]))]

namespace TimeSeriesBuffer

@[simp] theorem effSrate_resetTvec (st : TimeSeriesBuffer) (t0 : Option ℚ) :
    (st.resetTvec t0).effSrate = st.effSrate := by
  unfold effSrate
  rw [resetTvec_srate]

theorem resetTvec_some_sweep_eq (st : TimeSeriesBuffer) (T : ℚ) (hm : st.mode = TSMode.Sweep) :
    st.resetTvec (some T) = { st with
      tvec := (List.range st.nCols).map
        (fun i : ℕ => (T - fmod T st.duration) + (i : ℚ) / st.effSrate),
      writeIdx := if st.nCols = 0
        then ((ssRight ((List.range st.nCols).map
          (fun i : ℕ => (T - fmod T st.duration) + (i : ℚ) / st.effSrate)) T : ℤ) - 1).toNat
        else npIdx st.nCols ((ssRight ((List.range st.nCols).map
          (fun i : ℕ => (T - fmod T st.duration) + (i : ℚ) / st.effSrate)) T : ℤ) - 1) } := by
  simp only [resetTvec, hm]
  simp

theorem sweep_resetTvec_phase (st : TimeSeriesBuffer) (T : ℚ)
    (hm : st.mode = TSMode.Sweep) (he : 0 < st.effSrate) (hd : 0 < st.duration)
    (hnd : st.effSrate * st.duration ≤ (st.nCols : ℚ)) :
    (st.resetTvec (some T)).tvec.getD (st.resetTvec (some T)).writeIdx 0 ≤ T ∧
    T < (st.resetTvec (some T)).tvec.getD (st.resetTvec (some T)).writeIdx 0 + 1 / st.effSrate := by
  have hn0 : 0 < st.nCols := by
    by_contra hcon
    push_neg at hcon
    have h0 : st.nCols = 0 := Nat.le_zero.mp hcon
    rw [h0] at hnd
    simp only [Nat.cast_zero] at hnd
    nlinarith
  have hxc : T - (T - fmod T st.duration) = fmod T st.duration := by ring
  have h0 : 0 ≤ T - (T - fmod T st.duration) := by rw [hxc]; exact fmod_nonneg hd
  have h1 : T - (T - fmod T st.duration) < st.duration := by rw [hxc]; exact fmod_lt hd
  rw [resetTvec_some_sweep_eq st T hm]
  set c := T - fmod T st.duration with hc
  set x := (T - c) * st.effSrate with hx
  have hx0 : 0 ≤ x := mul_nonneg h0 he.le
  have hxlt : x < (st.nCols : ℚ) := by
    calc x < st.duration * st.effSrate := by
          rw [hx]; exact mul_lt_mul_of_pos_right h1 he
      _ = st.effSrate * st.duration := mul_comm _ _
      _ ≤ (st.nCols : ℚ) := hnd
  have hm0 : (0 : ℤ) ≤ ⌊x⌋ := Int.floor_nonneg.mpr hx0
  have hmle : ((⌊x⌋ : ℤ) : ℚ) ≤ x := Int.floor_le x
  have hmlt : x < (⌊x⌋ : ℚ) + 1 := Int.lt_floor_add_one x
  have hcast : ((⌊x⌋.toNat : ℕ) : ℚ) = ((⌊x⌋ : ℤ) : ℚ) := by
    exact_mod_cast congrArg (fun z : ℤ => (z : ℚ)) (Int.toNat_of_nonneg hm0)
  have hmltn : ⌊x⌋.toNat < st.nCols := by
    have hq : ((⌊x⌋ : ℤ) : ℚ) < (st.nCols : ℚ) := lt_of_le_of_lt hmle hxlt
    have hz : ⌊x⌋ < (st.nCols : ℤ) := by exact_mod_cast hq
    omega
  have hxe : x / st.effSrate = T - c := by
    rw [hx]; field_simp
  have hss : ssRight ((List.range st.nCols).map (fun i : ℕ => c + (i : ℚ) / st.effSrate)) T =
      ⌊x⌋.toNat + 1 := by
    unfold ssRight
    rw [List.countP_map]
    rw [countP_congr_mem (q := fun i => decide (i ≤ ⌊x⌋.toNat)) ?_]
    · rw [countP_range_le]
      omega
    · intro i _
      simp only [Function.comp]
      apply decide_eq_decide.mpr
      constructor
      · intro hle
        have h2 : (i : ℚ) / st.effSrate ≤ x / st.effSrate := by rw [hxe]; linarith
        have h3 : (i : ℚ) ≤ x := by
          have := (div_le_div_iff_of_pos_right he).mp h2
          exact this
        have h4 : ((i : ℤ) : ℚ) ≤ x := by exact_mod_cast h3
        have h5 : (i : ℤ) ≤ ⌊x⌋ := Int.le_floor.mpr h4
        omega
      · intro hle
        have h5 : ((i : ℕ) : ℚ) ≤ ((⌊x⌋.toNat : ℕ) : ℚ) := by exact_mod_cast hle
        rw [hcast] at h5
        have h6 : (i : ℚ) ≤ x := le_trans h5 hmle
        have h7 : (i : ℚ) / st.effSrate ≤ x / st.effSrate :=
          (div_le_div_iff_of_pos_right he).mpr h6
        rw [hxe] at h7
        linarith
  simp only [hss]
  rw [if_neg (Nat.pos_iff_ne_zero.mp hn0)]
  have hwi : npIdx st.nCols ((((⌊x⌋.toNat + 1 : ℕ) : ℤ)) - 1) = ⌊x⌋.toNat := by
    unfold npIdx
    have h8 : (((⌊x⌋.toNat + 1 : ℕ) : ℤ)) - 1 = (⌊x⌋.toNat : ℤ) := by push_cast; ring
    rw [h8]
    rw [Int.emod_eq_of_lt (by positivity) (by exact_mod_cast hmltn)]
    omega
  rw [hwi]
  have hlen : ((List.range st.nCols).map (fun i : ℕ => c + (i : ℚ) / st.effSrate)).length =
      st.nCols := by simp
  rw [List.getD_eq_getElem _ _ (by rw [hlen]; exact hmltn)]
  rw [List.getElem_map]
  rw [List.getElem_range]
  constructor
  · have h9 : ((⌊x⌋.toNat : ℕ) : ℚ) / st.effSrate ≤ x / st.effSrate := by
      apply (div_le_div_iff_of_pos_right he).mpr
      rw [hcast]; exact hmle
    rw [hxe] at h9
    linarith
  · have h10 : x / st.effSrate < (((⌊x⌋.toNat : ℕ) : ℚ) + 1) / st.effSrate := by
      apply (div_lt_div_iff_of_pos_right he).mpr
      rw [hcast]; exact hmlt
    rw [hxe] at h10
    have h11 : (((⌊x⌋.toNat : ℕ) : ℚ) + 1) / st.effSrate =
        ((⌊x⌋.toNat : ℕ) : ℚ) / st.effSrate + 1 / st.effSrate := by ring
    linarith [h10, h11]

end TimeSeriesBuffer

/-- C1: Sweep phase invariant.  Part 1: any internal time-vector reset
(`_reset_tvec`) of a Sweep-mode buffer with positive effective rate, positive
duration and enough columns for one sweep satisfies
`tvec[write_idx] ≤ T < tvec[write_idx] + 1/rate`.  Part 2: any full
`reset(t0=T)` of such a buffer (with at least one channel) establishes the
column precondition and hence the invariant; `effSrate` is the effective rate,
i.e. the 1000 Hz override when the nominal rate is 0. -/
theorem c1_sweep_phase_invariant :
    (∀ (st : TimeSeriesBuffer) (T : ℚ), st.mode = TSMode.Sweep → 0 < st.effSrate →
      0 < st.duration → st.effSrate * st.duration ≤ (st.nCols : ℚ) →
      ((st.resetTvec (some T)).tvec.getD (st.resetTvec (some T)).writeIdx 0 ≤ T ∧
       T < (st.resetTvec (some T)).tvec.getD (st.resetTvec (some T)).writeIdx 0 +
         1 / st.effSrate)) ∧
    (∀ (st : TimeSeriesBuffer) (nChans : ℕ) (T : ℚ) (sA : Option ℚ) (dA : ℚ),
      0 < nChans →
      (st.reset nChans (some T) sA dA).mode = TSMode.Sweep →
      0 < (st.reset nChans (some T) sA dA).effSrate →
      0 < (st.reset nChans (some T) sA dA).duration →
      ((st.reset nChans (some T) sA dA).tvec.getD
          (st.reset nChans (some T) sA dA).writeIdx 0 ≤ T ∧
       T < (st.reset nChans (some T) sA dA).tvec.getD
          (st.reset nChans (some T) sA dA).writeIdx 0 +
         1 / (st.reset nChans (some T) sA dA).effSrate)) := by
  constructor
  · exact TimeSeriesBuffer.sweep_resetTvec_phase
  · intro st nChans T sA dA hch hm he hd
    obtain ⟨st2, hre, hmode, hsr, hdur, hdata⟩ :
        ∃ st2 : TimeSeriesBuffer,
          st.reset nChans (some T) sA dA = st2.resetTvec (some T) ∧
          st2.mode = st.mode ∧
          st2.srate = (st.reset nChans (some T) sA dA).srate ∧
          st2.duration = (st.reset nChans (some T) sA dA).duration ∧
          st2.data = List.replicate nChans (List.replicate
            (ceilNat (st2.effSrate * st2.duration)) Val.nan) :=
      ⟨_, rfl, rfl, rfl, rfl, rfl⟩
    rw [hre] at hm he hd ⊢
    simp only [TimeSeriesBuffer.resetTvec_mode] at hm
    simp only [TimeSeriesBuffer.effSrate_resetTvec] at he ⊢
    simp only [TimeSeriesBuffer.resetTvec_duration] at hd
    refine TimeSeriesBuffer.sweep_resetTvec_phase st2 T hm he hd ?_
    have hcols : st2.nCols = ceilNat (st2.effSrate * st2.duration) := by
      obtain ⟨k, rfl⟩ : ∃ k, nChans = k + 1 := ⟨nChans - 1, by omega⟩
      rw [TimeSeriesBuffer.nCols, hdata]
      simp [List.replicate_succ]
    rw [hcols]
    exact le_ceilNat (mul_nonneg he.le hd.le)

/-- C1 witness: a Sweep buffer with rate 2 Hz, duration 2 s and 4 columns,
anchored at T = 3.7. -/
theorem c1_witness :
    (0 : ℚ) < (⟨TSMode.Sweep, some 2, 2, [[Val.nan, Val.nan, Val.nan, Val.nan]],
        [0, 1/2, 1, 3/2], [], [], 0, false⟩ : TimeSeriesBuffer).effSrate ∧
    (((⟨TSMode.Sweep, some 2, 2, [[Val.nan, Val.nan, Val.nan, Val.nan]],
        [0, 1/2, 1, 3/2], [], [], 0, false⟩ : TimeSeriesBuffer).resetTvec
        (some (37/10))).tvec.getD
      ((⟨TSMode.Sweep, some 2, 2, [[Val.nan, Val.nan, Val.nan, Val.nan]],
        [0, 1/2, 1, 3/2], [], [], 0, false⟩ : TimeSeriesBuffer).resetTvec
        (some (37/10))).writeIdx 0 ≤ 37/10 ∧
     (37/10 : ℚ) < ((⟨TSMode.Sweep, some 2, 2, [[Val.nan, Val.nan, Val.nan, Val.nan]],
        [0, 1/2, 1, 3/2], [], [], 0, false⟩ : TimeSeriesBuffer).resetTvec
        (some (37/10))).tvec.getD
      ((⟨TSMode.Sweep, some 2, 2, [[Val.nan, Val.nan, Val.nan, Val.nan]],
        [0, 1/2, 1, 3/2], [], [], 0, false⟩ : TimeSeriesBuffer).resetTvec
        (some (37/10))).writeIdx 0 +
       1 / (⟨TSMode.Sweep, some 2, 2, [[Val.nan, Val.nan, Val.nan, Val.nan]],
        [0, 1/2, 1, 3/2], [], [], 0, false⟩ : TimeSeriesBuffer).effSrate) :=
  ⟨by decide, c1_sweep_phase_invariant.1 _ _ (by decide) (by decide) (by decide) (by decide)⟩

theorem ceilNat_pos {q : ℚ} (h : 0 < q) : 0 < ceilNat q := by
  unfold ceilNat
  have h1 : (0 : ℤ) < ⌈q⌉ := Int.ceil_pos.mpr h
  omega

theorem maskList_map_length {α β : Type} (l : List α) (cs : List β) (p : β → Bool)
    (h : l.length = cs.length) :
    (maskList l (cs.map p)).length = (cs.filter p).length := by
  induction cs generalizing l with
  | nil => simp
  | cons c cs ih =>
    cases l with
    | nil => simp at h
    | cons a l =>
      rw [List.map_cons, maskList_cons]
      cases hp : p c with
      | true =>
        rw [if_pos rfl, List.filter_cons_of_pos hp, List.length_cons, List.length_cons]
        exact congrArg Nat.succ (ih l (by simpa using h))
      | false =>
        rw [if_neg Bool.false_ne_true, List.filter_cons_of_neg (by simp [hp])]
        exact ih l (by simpa using h)

namespace TimeSeriesBuffer

theorem effSrate_eq_of_some {st : TimeSeriesBuffer} {r : ℚ} (h : st.srate = some r)
    (hr : r ≠ 0) : st.effSrate = r := by
  unfold effSrate
  rw [h]
  simp [hr]

theorem lastWriteTime_scroll {st : TimeSeriesBuffer} (h : st.mode = TSMode.Scroll) :
    st.lastWriteTime = lastD st.tvec 0 := by
  unfold lastWriteTime
  rw [h]
  simp

theorem resetTvec_some_tvec_length (st : TimeSeriesBuffer) (t : ℚ) :
    (st.resetTvec (some t)).tvec.length = st.nCols := by
  simp only [resetTvec]
  split <;> simp

theorem reset_keep_data (st : TimeSeriesBuffer) (n : ℕ) (t0 : Option ℚ) :
    (st.reset n t0 none 0).data =
      List.replicate n (List.replicate (ceilNat (st.effSrate * st.duration)) Val.nan) := by
  simp [reset, effSrate]

/-- In the clean path (non-empty tvec, all samples fresh, regular rate), the
sorted update reduces to overflow recovery plus the write phase. -/
theorem updateSorted_fresh (st : TimeSeriesBuffer) (data : List (List Val)) (ts : List ℚ)
    (nVis : ℕ) (nd : Bool)
    (htv : st.tvec ≠ []) (hts : ts ≠ [])
    (hfresh : ∀ t ∈ ts, st.lastWriteTime < t)
    (hsr : ¬ st.srate = some 0)
    (hrows : ∀ r ∈ data, r.length = ts.length) :
    st.updateSorted data ts nVis true nd = st.postSynth data ts nVis [] [] := by
  have hkeepall : ∀ t ∈ ts, (fun t => decide (st.lastWriteTime < t)) t = true := by
    intro t ht
    simpa using hfresh t ht
  have hmaskts : maskList ts (ts.map (fun t => decide (st.lastWriteTime < t))) = ts :=
    maskList_map_true ts ts _ rfl hkeepall
  have hmaskd : data.map (fun r => maskList r (ts.map (fun t => decide (st.lastWriteTime < t)))) =
      data := by
    conv_rhs => rw [← List.map_id data]
    exact List.map_congr_left (fun r hr =>
      maskList_map_true r ts _ (hrows r hr) hkeepall)
  have hany : ((ts.map (fun t => decide (st.lastWriteTime < t))).any id) = true := by
    cases ts with
    | nil => exact absurd rfl hts
    | cons t ts' =>
      have := hfresh t (by simp)
      simp [this]
  simp only [updateSorted, List.length_eq_zero, htv, if_false, hany, hmaskts, hmaskd, hsr]
  simp

end TimeSeriesBuffer

namespace TimeSeriesBuffer

theorem reset_keep_eq (st : TimeSeriesBuffer) (n : ℕ) (t0 : Option ℚ) :
    st.reset n t0 none 0 = TimeSeriesBuffer.resetTvec
      { st with data := List.replicate n (List.replicate (ceilNat (st.effSrate * st.duration)) Val.nan) } t0 := by
  simp only [reset]
  norm_num

theorem update_of_sorted_fresh (st : TimeSeriesBuffer) (data0 : List (List Val)) (ts0 : List ℚ)
    (cs : List ChanState) (nd : Bool)
    (hts : ts0 ≠ []) (hsorted : ts0.Pairwise (· ≤ ·))
    (hrowlen : ∀ row ∈ maskList data0 (cs.map (·.vis)), row.length = ts0.length) :
    st.update data0 ts0 cs true nd =
      st.updateSorted (maskList data0 (cs.map (·.vis))) ts0 (visCount cs) true nd := by
  simp only [update]
  rw [if_neg hts, argsort_of_sorted hsorted, reorder_range]
  have hdarg : (maskList data0 (cs.map (·.vis))).map
      (fun rr => reorder (List.range ts0.length) rr Val.nan) =
      maskList data0 (cs.map (·.vis)) := by
    conv_rhs => rw [← List.map_id (maskList data0 (cs.map (·.vis)))]
    refine List.map_congr_left ?_
    intro rr hrr
    rw [← hrowlen rr hrr]
    exact reorder_range rr Val.nan
  rw [hdarg]

end TimeSeriesBuffer

/-- C2: overflow recovery.  Part 1: whenever the (possibly synthesized)
incoming sample count exceeds the buffer's column count, `update` truncates
the chunk to its most recent `capacity` samples and fully resets the buffer
anchored at the truncated window's first timestamp before writing.  Part 2:
feeding `2 × capacity` fresh, strictly in-order samples to a well-formed
Scroll-mode buffer in one update leaves the buffer holding exactly the last
`capacity` samples and timestamps, so in particular no NaN remains when the
incoming samples carry none. -/
theorem c2_overflow_truncation :
    (∀ (st : TimeSeriesBuffer) (data : List (List Val)) (ts : List ℚ) (nVis : ℕ)
      (mks : List Val) (mkts : List ℚ), st.nCols < ts.length →
      st.postSynth data ts nVis mks mkts =
        (st.reset nVis (some ((lastN st.nCols ts).headD 0)) none 0).writeChunk
          (data.map (lastN st.nCols)) (lastN st.nCols ts) mks mkts) ∧
    (∀ (st : TimeSeriesBuffer) (data0 : List (List Val)) (ts0 : List ℚ) (cs : List ChanState)
      (r : ℚ),
      st.mode = TSMode.Scroll → st.srate = some r → 0 < r → 0 < st.duration →
      st.tvec.length = st.nCols → st.nCols = ceilNat (r * st.duration) →
      data0.length = cs.length → 0 < visCount cs →
      (∀ row ∈ maskList data0 (cs.map (·.vis)), row.length = ts0.length) →
      ts0.length = 2 * st.nCols →
      ts0.Pairwise (· < ·) →
      (∀ t ∈ ts0, lastD st.tvec 0 < t) →
      ((st.update data0 ts0 cs true true).tvec = ts0.drop st.nCols ∧
       (st.update data0 ts0 cs true true).data =
         (maskList data0 (cs.map (·.vis))).map (fun row => row.drop st.nCols) ∧
       ((∀ row ∈ maskList data0 (cs.map (·.vis)), Val.nan ∉ row) →
         ∀ row ∈ (st.update data0 ts0 cs true true).data, Val.nan ∉ row))) := by
  constructor
  · intro st data ts nVis mks mkts h
    simp only [TimeSeriesBuffer.postSynth]
    rw [if_pos h]
  · intro st data0 ts0 cs r hmode hsr hr hd hcap hcols hrows0 hvis hrowlen hts2n hsorted hfresh
    have hn0 : 0 < st.nCols := hcols ▸ ceilNat_pos (mul_pos hr hd)
    have hts0ne : ts0 ≠ [] := by
      intro hh
      rw [hh] at hts2n
      simp at hts2n
      omega
    have heff : st.effSrate = r := TimeSeriesBuffer.effSrate_eq_of_some hsr hr.ne'
    have htvne : st.tvec ≠ [] := by
      intro hh
      rw [hh] at hcap
      simp at hcap
      omega
    have hfresh' : ∀ t ∈ ts0, st.lastWriteTime < t := by
      rw [TimeSeriesBuffer.lastWriteTime_scroll hmode]
      exact hfresh
    have hsr0 : ¬ st.srate = some 0 := by
      rw [hsr]
      simp [hr.ne']
    have hover : st.nCols < ts0.length := by omega
    have hts'len : (lastN st.nCols ts0).length = st.nCols := lastN_length_of_le (by omega)
    have hts'eq : lastN st.nCols ts0 = ts0.drop st.nCols := by
      unfold lastN
      rw [show ts0.length - st.nCols = st.nCols by omega]
    have hst'data : (st.reset (visCount cs) (some ((lastN st.nCols ts0).headD 0)) none 0).data =
        List.replicate (visCount cs) (List.replicate st.nCols Val.nan) := by
      rw [TimeSeriesBuffer.reset_keep_data, heff, ← hcols]
    have hst'tvlen : (st.reset (visCount cs) (some ((lastN st.nCols ts0).headD 0)) none 0).tvec.length =
        st.nCols := by
      rw [TimeSeriesBuffer.reset_keep_eq, TimeSeriesBuffer.resetTvec_some_tvec_length]
      obtain ⟨k, hk⟩ : ∃ k, visCount cs = k + 1 := ⟨visCount cs - 1, by omega⟩
      rw [TimeSeriesBuffer.nCols]
      simp only [hk, List.replicate_succ, List.headD_cons]
      rw [List.length_replicate, heff, ← hcols]
    have hfinal : st.update data0 ts0 cs true true =
        { st.reset (visCount cs) (some ((lastN st.nCols ts0).headD 0)) none 0 with
          data := (st.reset (visCount cs) (some ((lastN st.nCols ts0).headD 0)) none 0).data.mapIdx
            (fun i bufRow => bufRow.drop (lastN st.nCols ts0).length ++
              lastN (lastN st.nCols ts0).length
                (((maskList data0 (cs.map (·.vis))).map (lastN st.nCols)).getD i [])),
          tvec := (st.reset (visCount cs) (some ((lastN st.nCols ts0).headD 0)) none 0).tvec.drop
              (lastN st.nCols ts0).length ++
            lastN (lastN st.nCols ts0).length (lastN st.nCols ts0) } := by
      rw [TimeSeriesBuffer.update_of_sorted_fresh st data0 ts0 cs true hts0ne
        (hsorted.imp (fun h => le_of_lt h)) hrowlen]
      rw [TimeSeriesBuffer.updateSorted_fresh st _ _ _ _ htvne hts0ne hfresh' hsr0 hrowlen]
      simp only [TimeSeriesBuffer.postSynth]
      rw [if_pos hover]
      rw [TimeSeriesBuffer.writeChunk_scroll _ _ _ _ _ (by simp [hmode])]
    have hdveq : (maskList data0 (cs.map (·.vis))).length = visCount cs := by
      rw [maskList_map_length data0 cs _ hrows0]
      rfl
    have htveq : (st.update data0 ts0 cs true true).tvec = ts0.drop st.nCols := by
      rw [hfinal]
      show (st.reset (visCount cs) (some ((lastN st.nCols ts0).headD 0)) none 0).tvec.drop
          (lastN st.nCols ts0).length ++ lastN (lastN st.nCols ts0).length (lastN st.nCols ts0) =
          ts0.drop st.nCols
      rw [hts'len, List.drop_eq_nil_of_le (le_of_eq hst'tvlen),
        lastN_of_length_le (le_of_eq hts'len), hts'eq]
      simp
    have hdataeq : (st.update data0 ts0 cs true true).data =
        (maskList data0 (cs.map (·.vis))).map (fun row => row.drop st.nCols) := by
      rw [hfinal]
      show (st.reset (visCount cs) (some ((lastN st.nCols ts0).headD 0)) none 0).data.mapIdx
          (fun i bufRow => bufRow.drop (lastN st.nCols ts0).length ++
            lastN (lastN st.nCols ts0).length
              (((maskList data0 (cs.map (·.vis))).map (lastN st.nCols)).getD i [])) =
          (maskList data0 (cs.map (·.vis))).map (fun row => row.drop st.nCols)
      rw [hst'data, hts'len]
      apply List.ext_getElem
      · simp [hdveq]
      · intro i h1 h2
        rw [List.getElem_mapIdx]
        rw [List.getElem_map]
        have hiv : i < visCount cs := by
          simp only [List.length_mapIdx, List.length_replicate] at h1
          exact h1
        have hidv : i < (maskList data0 (cs.map (·.vis))).length := by
          rw [hdveq]; exact hiv
        rw [List.getElem_replicate]
        rw [List.drop_eq_nil_of_le (by simp)]
        rw [List.getD_eq_getElem _ _ (by simpa using hidv)]
        rw [List.getElem_map]
        have hrl : ((maskList data0 (cs.map (·.vis)))[i]).length = 2 * st.nCols := by
          rw [hrowlen _ (List.getElem_mem _), hts2n]
        rw [lastN_of_length_le (le_of_eq (by rw [lastN_length_of_le (by omega)]))]
        unfold lastN
        rw [hrl, show 2 * st.nCols - st.nCols = st.nCols by omega]
        simp
    refine ⟨htveq, hdataeq, ?_⟩
    intro hnn row hrow
    rw [hdataeq] at hrow
    rcases List.mem_map.mp hrow with ⟨rr, hrr, rfl⟩
    intro hmem
    exact hnn rr hrr (List.mem_of_mem_drop hmem)

/-- C2 witness: a 1-column Scroll buffer (rate 1, duration 1) fed 2 fresh
in-order samples in one update retains exactly the last sample. -/
theorem c2_witness :
    (⟨TSMode.Scroll, some 1, 1, [[Val.nan]], [0], [], [], 0, false⟩ :
      TimeSeriesBuffer).mode = TSMode.Scroll ∧
    (((⟨TSMode.Scroll, some 1, 1, [[Val.nan]], [0], [], [], 0, false⟩ :
        TimeSeriesBuffer).update [[Val.num 1, Val.num 2]] [1, 2] [⟨0, true⟩] true true).tvec =
        ([1, 2] : List ℚ).drop (⟨TSMode.Scroll, some 1, 1, [[Val.nan]], [0], [], [], 0, false⟩ :
          TimeSeriesBuffer).nCols ∧
     ((⟨TSMode.Scroll, some 1, 1, [[Val.nan]], [0], [], [], 0, false⟩ :
        TimeSeriesBuffer).update [[Val.num 1, Val.num 2]] [1, 2] [⟨0, true⟩] true true).data =
        (maskList [[Val.num 1, Val.num 2]] (([⟨0, true⟩] : List ChanState).map (·.vis))).map
          (fun row => row.drop (⟨TSMode.Scroll, some 1, 1, [[Val.nan]], [0], [], [], 0, false⟩ :
            TimeSeriesBuffer).nCols) ∧
     ((∀ row ∈ maskList [[Val.num 1, Val.num 2]] (([⟨0, true⟩] : List ChanState).map (·.vis)),
         Val.nan ∉ row) →
       ∀ row ∈ ((⟨TSMode.Scroll, some 1, 1, [[Val.nan]], [0], [], [], 0, false⟩ :
        TimeSeriesBuffer).update [[Val.num 1, Val.num 2]] [1, 2] [⟨0, true⟩] true true).data,
         Val.nan ∉ row)) :=
  ⟨rfl, c2_overflow_truncation.2 _ _ _ _ 1 rfl rfl (by decide) (by decide) (by decide)
    (by decide) (by decide) (by decide) (by decide) (by decide) (by decide) (by decide)⟩

theorem maskList_ne_nil_of_any {l : List α} {p : α → Bool}
    (h : ((l.map p).any id) = true) : maskList l (l.map p) ≠ [] := by
  induction l with
  | nil => simp at h
  | cons a l ih =>
    rw [List.map_cons, maskList_cons]
    cases hp : p a with
    | true => simp
    | false =>
      rw [if_neg Bool.false_ne_true]
      apply ih
      simpa [hp] using h

namespace TimeSeriesBuffer

/-- `update` on a buffer with data already seen (`tvec` non-empty) and a
regular rate reduces to the stale-filter plus overflow/write phases. -/
theorem updateSorted_clean (st : TimeSeriesBuffer) (data : List (List Val)) (ts : List ℚ)
    (nVis : ℕ) (nd : Bool) (htv : st.tvec ≠ []) (hsr : ¬ st.srate = some 0) :
    st.updateSorted data ts nVis true nd =
      if ((ts.map (fun t => decide (st.lastWriteTime < t))).any id) = false then st
      else st.postSynth
        (data.map (fun r => maskList r (ts.map (fun t => decide (st.lastWriteTime < t)))))
        (maskList ts (ts.map (fun t => decide (st.lastWriteTime < t)))) nVis [] [] := by
  simp only [updateSorted, List.length_eq_zero, htv, if_false, hsr]
  by_cases hany : ((ts.map (fun t => decide (st.lastWriteTime < t))).any id) = true
  · rw [if_neg (by simp [hany])]
    simp [hany]
  · simp [hany]

end TimeSeriesBuffer

/-- The invariant of claim C5 for a Scroll buffer with nominal rate `r`:
Scroll mode, known rate, positive duration, a time vector of exactly
`capacity = ceil(r × duration)` entries, and a non-decreasing time vector. -/
def ScrollInv (r : ℚ) (st : TimeSeriesBuffer) : Prop :=
  st.mode = TSMode.Scroll ∧ st.srate = some r ∧ 0 < st.duration ∧
  st.tvec.length = st.nCols ∧ st.nCols = ceilNat (r * st.duration) ∧
  st.tvec.Pairwise (· ≤ ·)

/-- A sequence of `update` calls (`ignore_old` defaulted to true). -/
def runScroll (st : TimeSeriesBuffer)
    (chunks : List (List (List Val) × List ℚ × List ChanState)) : TimeSeriesBuffer :=
  chunks.foldl (fun s c => s.update c.1 c.2.1 c.2.2 true true) st

namespace TimeSeriesBuffer

theorem reset_keep_tvec_length (st : TimeSeriesBuffer) (n : ℕ) (t : ℚ) (hn : 0 < n) :
    (st.reset n (some t) none 0).tvec.length = ceilNat (st.effSrate * st.duration) := by
  rw [reset_keep_eq, resetTvec_some_tvec_length]
  obtain ⟨k, hk⟩ : ∃ k, n = k + 1 := ⟨n - 1, by omega⟩
  rw [nCols]
  simp only [hk, List.replicate_succ, List.headD_cons, List.length_replicate]

end TimeSeriesBuffer

namespace TimeSeriesBuffer

theorem resetTvec_some_scroll_eq (st : TimeSeriesBuffer) (T : ℚ) (hm : st.mode = TSMode.Scroll) :
    (st.resetTvec (some T)).tvec = (List.range st.nCols).map
      (fun i : ℕ => T - ((st.nCols - 1 - i : ℕ) : ℚ) / st.effSrate) := by
  simp only [resetTvec, hm]
  simp

theorem resetTvec_some_scroll_sorted (st : TimeSeriesBuffer) (T : ℚ)
    (hm : st.mode = TSMode.Scroll) (he : 0 < st.effSrate) :
    (st.resetTvec (some T)).tvec.Pairwise (· ≤ ·) := by
  rw [resetTvec_some_scroll_eq st T hm]
  rw [List.pairwise_map]
  have h := List.pairwise_lt_range st.nCols
  refine h.imp_of_mem ?_
  intro a b _ _ hab
  have h1 : (st.nCols - 1 - b : ℕ) ≤ (st.nCols - 1 - a : ℕ) := by omega
  have h2 : ((st.nCols - 1 - b : ℕ) : ℚ) ≤ ((st.nCols - 1 - a : ℕ) : ℚ) := by
    exact_mod_cast h1
  have h3 : ((st.nCols - 1 - b : ℕ) : ℚ) / st.effSrate ≤
      ((st.nCols - 1 - a : ℕ) : ℚ) / st.effSrate :=
    (div_le_div_iff_of_pos_right he).mpr h2
  linarith

theorem reset_keep_nCols (st : TimeSeriesBuffer) (n : ℕ) (t0 : Option ℚ) (hn : 0 < n) :
    (st.reset n t0 none 0).nCols = ceilNat (st.effSrate * st.duration) := by
  obtain ⟨k, hk⟩ : ∃ k, n = k + 1 := ⟨n - 1, by omega⟩
  rw [nCols, reset_keep_data]
  simp [hk, List.replicate_succ]

theorem nCols_pos_data_ne_nil {st : TimeSeriesBuffer} (h : 0 < st.nCols) : st.data ≠ [] := by
  intro hh
  rw [nCols, hh] at h
  simp at h

end TimeSeriesBuffer

/-- `ScrollInv` is preserved by the Scroll write phase for any sorted chunk of
fresh timestamps that fits in the buffer. -/
theorem scrollInv_writeChunk (r : ℚ) (stB : TimeSeriesBuffer) (dataM : List (List Val))
    (tsW : List ℚ) (mks : List Val) (mkts : List ℚ)
    (hmode : stB.mode = TSMode.Scroll) (hsr : stB.srate = some r) (hd : 0 < stB.duration)
    (hcap : stB.tvec.length = stB.nCols) (hcols : stB.nCols = ceilNat (r * stB.duration))
    (hstv : stB.tvec.Pairwise (· ≤ ·)) (htsW : tsW.Pairwise (· ≤ ·))
    (htsWlen : tsW.length ≤ stB.nCols)
    (hcross : ∀ a ∈ stB.tvec.drop tsW.length, ∀ b ∈ tsW, a ≤ b)
    (hrow0 : (dataM.getD 0 []).length = tsW.length)
    (hne : stB.data ≠ []) :
    ScrollInv r (stB.writeChunk dataM tsW mks mkts) := by
  rw [TimeSeriesBuffer.writeChunk_scroll _ _ _ _ _ hmode]
  obtain ⟨row0, rows0, hrows0⟩ := List.exists_cons_of_ne_nil hne
  have hrow0len : row0.length = stB.nCols := by
    rw [TimeSeriesBuffer.nCols, hrows0, List.headD_cons]
  have hlastN : lastN tsW.length tsW = tsW := lastN_of_length_le (le_refl _)
  have hnew_tvec : (stB.tvec.drop tsW.length ++ lastN tsW.length tsW).length = stB.nCols := by
    rw [hlastN, List.length_append, List.length_drop, hcap]
    omega
  have hnew_nCols : TimeSeriesBuffer.nCols
      { stB with
        data := stB.data.mapIdx (fun i bufRow => bufRow.drop tsW.length ++
          lastN tsW.length (dataM.getD i [])),
        tvec := stB.tvec.drop tsW.length ++ lastN tsW.length tsW } = stB.nCols := by
    show ((stB.data.mapIdx (fun i bufRow => bufRow.drop tsW.length ++
      lastN tsW.length (dataM.getD i []))).headD []).length = stB.nCols
    rw [hrows0, List.mapIdx_cons, List.headD_cons, List.length_append, List.length_drop,
      hrow0len]
    have h2 : (lastN tsW.length (dataM.getD 0 [])).length = tsW.length := by
      rw [lastN, List.length_drop, hrow0]
      omega
    rw [h2]
    omega
  refine ⟨hmode, hsr, hd, ?_, ?_, ?_⟩
  · rw [hnew_nCols]
    exact hnew_tvec
  · rw [hnew_nCols]
    exact hcols
  · show (stB.tvec.drop tsW.length ++ lastN tsW.length tsW).Pairwise (· ≤ ·)
    rw [hlastN]
    rw [List.pairwise_append]
    refine ⟨List.Pairwise.sublist (List.drop_sublist _ _) hstv, htsW, ?_⟩
    intro a ha b hb
    exact hcross a ha b hb

theorem scrollInv_step (r : ℚ) (st : TimeSeriesBuffer) (data0 : List (List Val)) (ts0 : List ℚ)
    (cs : List ChanState) (hr : 0 < r) (hinv : ScrollInv r st)
    (hlen : data0.length = cs.length) (hvis : 0 < visCount cs) :
    ScrollInv r (st.update data0 ts0 cs true true) := by
  obtain ⟨hmode, hsr, hd, hcap, hcols, hstv⟩ := hinv
  have heff : st.effSrate = r := TimeSeriesBuffer.effSrate_eq_of_some hsr hr.ne'
  have hn0 : 0 < st.nCols := hcols ▸ ceilNat_pos (mul_pos hr hd)
  have htvne : st.tvec ≠ [] := by
    intro hh; rw [hh] at hcap; simp at hcap; omega
  have hsr0 : ¬ st.srate = some 0 := by rw [hsr]; simp [hr.ne']
  by_cases hts : ts0 = []
  · have heq : st.update data0 ts0 cs true true = st := by
      subst hts; simp [TimeSeriesBuffer.update]
    rw [heq]; exact ⟨hmode, hsr, hd, hcap, hcols, hstv⟩
  have hueq : st.update data0 ts0 cs true true =
      st.updateSorted ((maskList data0 (cs.map (·.vis))).map
        (fun rr => reorder (argsort ts0) rr Val.nan)) (reorder (argsort ts0) ts0 0)
        (visCount cs) true true := by
    simp only [TimeSeriesBuffer.update]; rw [if_neg hts]
  rw [hueq, TimeSeriesBuffer.updateSorted_clean _ _ _ _ _ htvne hsr0]
  by_cases hany : (((reorder (argsort ts0) ts0 0).map
      (fun t => decide (st.lastWriteTime < t))).any id) = false
  · rw [if_pos hany]; exact ⟨hmode, hsr, hd, hcap, hcols, hstv⟩
  rw [if_neg hany]
  have hts1sorted : (maskList (reorder (argsort ts0) ts0 0)
      ((reorder (argsort ts0) ts0 0).map (fun t => decide (st.lastWriteTime < t)))).Pairwise
      (· ≤ ·) :=
    List.Pairwise.sublist (maskList_sublist _ _) (reorder_argsort_pairwise ts0)
  have hts1fresh : ∀ t ∈ maskList (reorder (argsort ts0) ts0 0)
      ((reorder (argsort ts0) ts0 0).map (fun t => decide (st.lastWriteTime < t))),
      lastD st.tvec 0 < t := by
    intro t ht
    have h2 := (mem_maskList_map ht).2
    rw [← TimeSeriesBuffer.lastWriteTime_scroll hmode]
    simpa using h2
  have hdataVlen : ((maskList data0 (cs.map (·.vis))).map
      (fun rr => reorder (argsort ts0) rr Val.nan)).length = visCount cs := by
    rw [List.length_map, maskList_map_length data0 cs _ hlen]; rfl
  have hrowlen : ∀ rr ∈ ((maskList data0 (cs.map (·.vis))).map
      (fun rr => reorder (argsort ts0) rr Val.nan)).map
        (fun rr => maskList rr ((reorder (argsort ts0) ts0 0).map
          (fun t => decide (st.lastWriteTime < t)))),
      rr.length = (maskList (reorder (argsort ts0) ts0 0)
        ((reorder (argsort ts0) ts0 0).map (fun t => decide (st.lastWriteTime < t)))).length := by
    intro rr hrr
    rcases List.mem_map.mp hrr with ⟨rr0, hrr0, rfl⟩
    apply maskList_length_congr
    rcases List.mem_map.mp hrr0 with ⟨rr1, _, rfl⟩
    simp [reorder, argsort_length]
  simp only [TimeSeriesBuffer.postSynth]
  set ts1 := maskList (reorder (argsort ts0) ts0 0)
      ((reorder (argsort ts0) ts0 0).map (fun t => decide (st.lastWriteTime < t))) with hts1def
  set data1 := ((maskList data0 (cs.map (·.vis))).map
      (fun rr => reorder (argsort ts0) rr Val.nan)).map
        (fun rr => maskList rr ((reorder (argsort ts0) ts0 0).map
          (fun t => decide (st.lastWriteTime < t)))) with hdata1def
  have hdata1len : data1.length = visCount cs := by
    rw [hdata1def, List.length_map]; exact hdataVlen
  have hdata1ne : data1 ≠ [] := by
    intro hh; rw [hh] at hdata1len; simp at hdata1len; omega
  obtain ⟨row1, rows1, hrows1⟩ := List.exists_cons_of_ne_nil hdata1ne
  have hrow1len : row1.length = ts1.length := hrowlen row1 (by rw [hrows1]; simp)
  by_cases hov : st.nCols < ts1.length
  · rw [if_pos hov]
    have hts2len : (lastN st.nCols ts1).length = st.nCols := lastN_length_of_le hov.le
    refine scrollInv_writeChunk r _ _ _ _ _ ?_ ?_ ?_ ?_ ?_ ?_ ?_ ?_ ?_ ?_ ?_
    · simp [hmode]
    · simp [hsr]
    · simp [hd]
    · rw [TimeSeriesBuffer.reset_keep_tvec_length st _ _ hvis,
        TimeSeriesBuffer.reset_keep_nCols st _ _ hvis]
    · rw [TimeSeriesBuffer.reset_keep_nCols st _ _ hvis, heff]
      simp
    · rw [TimeSeriesBuffer.reset_keep_eq]
      apply TimeSeriesBuffer.resetTvec_some_scroll_sorted
      · simp [hmode]
      · show (0 : ℚ) < st.effSrate
        rw [heff]
        exact hr
    · exact List.Pairwise.sublist (by rw [lastN]; exact List.drop_sublist _ _) hts1sorted
    · rw [hts2len, TimeSeriesBuffer.reset_keep_nCols st _ _ hvis, heff, ← hcols]
    · intro a ha b hb
      exfalso
      have hdropnil : (st.reset (visCount cs) (some ((lastN st.nCols ts1).headD 0))
          none 0).tvec.drop (lastN st.nCols ts1).length = [] := by
        apply List.drop_eq_nil_of_le
        rw [TimeSeriesBuffer.reset_keep_tvec_length st _ _ hvis, hts2len, heff, ← hcols]
      rw [hdropnil] at ha
      simp at ha
    · rw [hrows1]
      simp only [List.map_cons, List.getD_cons_zero]
      rw [hts2len, lastN, List.length_drop, hrow1len]
      omega
    · rw [TimeSeriesBuffer.reset_keep_data]
      obtain ⟨k, hk⟩ : ∃ k, visCount cs = k + 1 := ⟨visCount cs - 1, by omega⟩
      simp [hk]
  · rw [if_neg hov]
    push_neg at hov
    refine scrollInv_writeChunk r st _ _ _ _ hmode hsr hd hcap hcols hstv hts1sorted hov ?_ ?_ ?_
    · intro a ha b hb
      have ha' : a ∈ st.tvec := List.mem_of_mem_drop ha
      have h1 : a ≤ lastD st.tvec 0 := pairwise_forall_le_lastD hstv 0 a ha'
      have h2 : lastD st.tvec 0 < b := hts1fresh b hb
      linarith
    · rw [hrows1]
      simp only [List.getD_cons_zero]
      exact hrow1len
    · exact TimeSeriesBuffer.nCols_pos_data_ne_nil hn0

instance (r : ℚ) (st : TimeSeriesBuffer) : Decidable (ScrollInv r st) :=
  inferInstanceAs (Decidable (_ ∧ _ ∧ _ ∧ _ ∧ _ ∧ _))

/-- C5: Scroll monotonicity.  For a Scroll-mode buffer with known positive
rate and positive duration whose state is well-formed (`ScrollInv`), any
sequence of `update` calls (default `ignore_old = True`, at least one visible
channel and matching channel counts per chunk — in particular any in-order
sequence) keeps `ScrollInv`; hence after every update the time vector is
non-decreasing and its length is constantly `capacity = ceil(rate×duration)`.
Applying the theorem to a prefix of the chunk list gives the property after
each intermediate update. -/
theorem c5_scroll_monotonicity (r : ℚ) (st : TimeSeriesBuffer)
    (chunks : List (List (List Val) × List ℚ × List ChanState))
    (hr : 0 < r) (hinv : ScrollInv r st)
    (hwf : ∀ c ∈ chunks, c.1.length = c.2.2.length ∧ 0 < visCount c.2.2) :
    ScrollInv r (runScroll st chunks) ∧
    (runScroll st chunks).tvec.Pairwise (· ≤ ·) ∧
    (runScroll st chunks).tvec.length = ceilNat (r * st.duration) := by
  have key : ∀ (cl : List (List (List Val) × List ℚ × List ChanState))
      (st' : TimeSeriesBuffer), ScrollInv r st' →
      (∀ c ∈ cl, c.1.length = c.2.2.length ∧ 0 < visCount c.2.2) →
      ScrollInv r (runScroll st' cl) ∧ (runScroll st' cl).duration = st'.duration := by
    intro cl
    induction cl with
    | nil =>
      intro st' h1 _
      exact ⟨h1, rfl⟩
    | cons c rest ih =>
      intro st' h1 h2
      have hstep := scrollInv_step r st' c.1 c.2.1 c.2.2 hr h1 (h2 c (by simp)).1
        (h2 c (by simp)).2
      have hrest := ih (st'.update c.1 c.2.1 c.2.2 true true) hstep
        (fun d hdm => h2 d (by simp [hdm]))
      constructor
      · exact hrest.1
      · rw [show runScroll st' (c :: rest) =
            runScroll (st'.update c.1 c.2.1 c.2.2 true true) rest from rfl]
        rw [hrest.2, TimeSeriesBuffer.update_duration]
  obtain ⟨hi, hdur⟩ := key chunks st hinv hwf
  refine ⟨hi, hi.2.2.2.2.2, ?_⟩
  rw [hi.2.2.2.1, hi.2.2.2.2.1, hdur]

/-- C5 witness: a 1-column Scroll buffer stays well-formed over a 2-chunk run. -/
theorem c5_witness :
    ScrollInv 1 (⟨TSMode.Scroll, some 1, 1, [[Val.nan]], [0], [], [], 0, false⟩ :
      TimeSeriesBuffer) ∧
    (ScrollInv 1 (runScroll (⟨TSMode.Scroll, some 1, 1, [[Val.nan]], [0], [], [], 0, false⟩ :
        TimeSeriesBuffer) [([[Val.num 5, Val.num 6]], [1/2, 1], [⟨0, true⟩]),
          ([[Val.num 7]], [2], [⟨0, true⟩])]) ∧
     (runScroll (⟨TSMode.Scroll, some 1, 1, [[Val.nan]], [0], [], [], 0, false⟩ :
        TimeSeriesBuffer) [([[Val.num 5, Val.num 6]], [1/2, 1], [⟨0, true⟩]),
          ([[Val.num 7]], [2], [⟨0, true⟩])]).tvec.Pairwise (· ≤ ·) ∧
     (runScroll (⟨TSMode.Scroll, some 1, 1, [[Val.nan]], [0], [], [], 0, false⟩ :
        TimeSeriesBuffer) [([[Val.num 5, Val.num 6]], [1/2, 1], [⟨0, true⟩]),
          ([[Val.num 7]], [2], [⟨0, true⟩])]).tvec.length =
        ceilNat (1 * (⟨TSMode.Scroll, some 1, 1, [[Val.nan]], [0], [], [], 0, false⟩ :
          TimeSeriesBuffer).duration)) :=
  ⟨by decide, c5_scroll_monotonicity 1 _ _ (by decide) (by decide) (by decide)⟩

theorem maskList_map_comm {α β : Type} (l : List α) (m : List Bool) (f : α → β) :
    maskList (l.map f) m = (maskList l m).map f := by
  induction l generalizing m with
  | nil => simp
  | cons a l ih =>
    cases m with
    | nil => simp
    | cons b mm =>
      rw [List.map_cons, maskList_cons, maskList_cons]
      cases b with
      | true => simp [ih]
      | false =>
        rw [if_neg Bool.false_ne_true, if_neg Bool.false_ne_true]
        exact ih mm

theorem getD_reorder_lt {σ : List ℕ} {l : List α} {d d' : α} {i : ℕ} (h : i < σ.length) :
    (reorder σ l d).getD i d' = l.getD (σ.getD i 0) d := by
  unfold reorder
  rw [List.getD_eq_getElem _ _ (by simpa using h), List.getElem_map,
    List.getD_eq_getElem σ 0 h]

theorem reorder_reorder {re σ : List ℕ} {l : List α} {d : α}
    (h : ∀ i ∈ re, i < σ.length) :
    reorder re (reorder σ l d) d = reorder (re.map (fun i => σ.getD i 0)) l d := by
  unfold reorder
  rw [List.map_map]
  apply List.map_congr_left
  intro i hi
  exact getD_reorder_lt (h i hi)

theorem keyedLe_antisymm_of_nodup {ts : List ℚ} (hnd : ts.Nodup) {a b : ℕ}
    (ha : a < ts.length) (hb : b < ts.length)
    (h1 : keyedLe ts a b) (h2 : keyedLe ts b a) : a = b := by
  have hval : ts.getD a 0 = ts.getD b 0 := le_antisymm h1 h2
  rw [List.getD_eq_getElem ts 0 ha, List.getD_eq_getElem ts 0 hb] at hval
  exact (List.Nodup.getElem_inj_iff hnd).mp hval

theorem sorted_perm_range_unique {ts : List ℚ} (hnd : ts.Nodup) :
    ∀ {l₁ l₂ : List ℕ}, l₁.Perm l₂ → List.Sorted (keyedLe ts) l₁ →
    List.Sorted (keyedLe ts) l₂ → l₁.Nodup → (∀ i ∈ l₁, i < ts.length) → l₁ = l₂ := by
  intro l₁
  induction l₁ with
  | nil =>
    intro l₂ hp _ _ _ _
    exact hp.nil_eq
  | cons a t₁ ih =>
    intro l₂ hp hs₁ hs₂ hnd₁ hb
    cases l₂ with
    | nil => exact absurd hp.symm.nil_eq (by simp)
    | cons b t₂ =>
      have hab : a = b := by
        have ha2 : a ∈ b :: t₂ := hp.mem_iff.mp (by simp)
        rcases List.mem_cons.mp ha2 with h | h
        · exact h
        · have hba : keyedLe ts b a := (List.pairwise_cons.mp hs₂).1 a h
          have hb2 : b ∈ a :: t₁ := hp.symm.mem_iff.mp (by simp)
          rcases List.mem_cons.mp hb2 with h' | h'
          · exact h'.symm
          · have hab' : keyedLe ts a b := (List.pairwise_cons.mp hs₁).1 b h'
            exact keyedLe_antisymm_of_nodup hnd (hb a (by simp)) (hb b (by simp [h'])) hab' hba
      subst hab
      have hpt : t₁.Perm t₂ := hp.cons_inv
      rw [ih hpt (List.pairwise_cons.mp hs₁).2 (List.pairwise_cons.mp hs₂).2
        (List.nodup_cons.mp hnd₁).2 (fun i hi => hb i (by simp [hi]))]

theorem argsort_perm_eq {ts0 : List ℚ} (σ : List ℕ) (hσ : σ.Perm (List.range ts0.length))
    (hnodup : ts0.Nodup) :
    (argsort (reorder σ ts0 0)).map (fun i => σ.getD i 0) = argsort ts0 := by
  have hσlen : σ.length = ts0.length := by simpa using hσ.length_eq
  have hts0'len : (reorder σ ts0 0).length = ts0.length := by simp [reorder, hσlen]
  have hval : ∀ j < ts0.length, (reorder σ ts0 0).getD j 0 = ts0.getD (σ.getD j 0) 0 := by
    intro j hj
    exact getD_reorder_lt (by omega)
  have hBperm : ((argsort (reorder σ ts0 0)).map (fun i => σ.getD i 0)).Perm
      (List.range ts0.length) := by
    have h1 : (argsort (reorder σ ts0 0)).Perm (List.range ts0.length) := by
      have h0 := argsort_perm (reorder σ ts0 0)
      rwa [hts0'len] at h0
    have h2 := h1.map (fun i => σ.getD i 0)
    have h3 : (List.range ts0.length).map (fun i => σ.getD i 0) = σ := by
      have h4 := reorder_range σ (0 : ℕ)
      rw [hσlen] at h4
      exact h4
    rw [h3] at h2
    exact h2.trans hσ
  have hBsorted : List.Sorted (keyedLe ts0)
      ((argsort (reorder σ ts0 0)).map (fun i => σ.getD i 0)) := by
    rw [List.Sorted, List.pairwise_map]
    have h5 := argsort_sorted (reorder σ ts0 0)
    refine h5.imp_of_mem ?_
    intro a b ha hb hab
    have ha' : a < ts0.length := hts0'len ▸ argsort_mem_lt ha
    have hb' : b < ts0.length := hts0'len ▸ argsort_mem_lt hb
    show ts0.getD (σ.getD a 0) 0 ≤ ts0.getD (σ.getD b 0) 0
    have h6 : (reorder σ ts0 0).getD a 0 ≤ (reorder σ ts0 0).getD b 0 := hab
    rwa [hval a ha', hval b hb'] at h6
  have hAnodup : (argsort ts0).Nodup :=
    (argsort_perm ts0).nodup_iff.mpr (List.nodup_range _)
  exact (sorted_perm_range_unique hnodup ((argsort_perm ts0).trans hBperm.symm)
    (argsort_sorted ts0) hBsorted hAnodup (fun i hi => argsort_mem_lt hi)).symm

/-- C4: out-of-order tolerance.  For any single `update` whose incoming
timestamps are pairwise distinct, jointly permuting the `(data, timestamps)`
columns produces an identical resulting buffer state: the joint timestamp
sort normalises the chunk before any write. -/
theorem c4_out_of_order_tolerance (st : TimeSeriesBuffer) (data0 : List (List Val))
    (ts0 : List ℚ) (cs : List ChanState) (io nd : Bool) (σ : List ℕ)
    (hσ : σ.Perm (List.range ts0.length)) (hnodup : ts0.Nodup) :
    st.update (data0.map (fun row => reorder σ row Val.nan)) (reorder σ ts0 0) cs io nd =
      st.update data0 ts0 cs io nd := by
  have hσlen : σ.length = ts0.length := by simpa using hσ.length_eq
  by_cases hts : ts0 = []
  · subst hts
    have hσnil : σ = [] := by
      rw [← List.length_eq_zero, hσlen]
      rfl
    subst hσnil
    simp [TimeSeriesBuffer.update, reorder]
  · have hts' : reorder σ ts0 0 ≠ [] := by
      intro hh
      have h1 := congrArg List.length hh
      simp only [reorder, List.length_map, hσlen, List.length_nil] at h1
      exact hts (List.length_eq_zero.mp h1)
    simp only [TimeSeriesBuffer.update]
    rw [if_neg hts, if_neg hts']
    have hkey := argsort_perm_eq σ hσ hnodup
    have hbound : ∀ i ∈ argsort (reorder σ ts0 0), i < σ.length := by
      intro i hi
      have h1 := argsort_mem_lt hi
      simp only [reorder, List.length_map] at h1
      exact h1
    have hTs : reorder (argsort (reorder σ ts0 0)) (reorder σ ts0 0) 0 =
        reorder (argsort ts0) ts0 0 := by
      rw [reorder_reorder hbound, hkey]
    have hData : (maskList (data0.map (fun row => reorder σ row Val.nan)) (cs.map (·.vis))).map
        (fun rr => reorder (argsort (reorder σ ts0 0)) rr Val.nan) =
        (maskList data0 (cs.map (·.vis))).map
          (fun rr => reorder (argsort ts0) rr Val.nan) := by
      rw [maskList_map_comm, List.map_map]
      apply List.map_congr_left
      intro row _
      show reorder (argsort (reorder σ ts0 0)) (reorder σ row Val.nan) Val.nan =
        reorder (argsort ts0) row Val.nan
      rw [reorder_reorder hbound, hkey]
    rw [hTs, hData]

/-- C4 witness: timestamps `[5,3,4]` with values `[50,30,40]` give the same
buffer state as `[3,4,5]` with `[30,40,50]`. -/
theorem c4_witness :
    (([2, 0, 1] : List ℕ).Perm (List.range ([3, 4, 5] : List ℚ).length) ∧
      ([3, 4, 5] : List ℚ).Nodup) ∧
    (⟨TSMode.Scroll, some 1, 3, [[Val.nan, Val.nan, Val.nan]], [0, 1, 2], [], [], 0, false⟩ :
        TimeSeriesBuffer).update [[Val.num 50, Val.num 30, Val.num 40]] [5, 3, 4]
        [⟨0, true⟩] true true =
      (⟨TSMode.Scroll, some 1, 3, [[Val.nan, Val.nan, Val.nan]], [0, 1, 2], [], [], 0, false⟩ :
        TimeSeriesBuffer).update [[Val.num 30, Val.num 40, Val.num 50]] [3, 4, 5]
        [⟨0, true⟩] true true :=
  ⟨⟨by decide, by decide⟩,
    c4_out_of_order_tolerance _ [[Val.num 30, Val.num 40, Val.num 50]] [3, 4, 5]
      [⟨0, true⟩] true true [2, 0, 1] (by decide) (by decide)⟩

theorem setLast_lastD {l : List α} (v : α) (d : α) (h : l ≠ []) :
    lastD (setLast l v) d = v := by
  unfold lastD setLast
  have hlen : 0 < l.length := List.length_pos.mpr h
  rw [List.getD_eq_getElem _ _ (by simp; omega)]
  simp only [List.length_set]
  rw [List.getElem_set_self]

theorem lastD_reorder {α : Type} {re : List ℕ} {l : List α} {d d' : α} (h : re ≠ []) :
    lastD (reorder re l d) d' = l.getD (lastD re 0) d := by
  unfold lastD reorder
  have hlen : 0 < re.length := List.length_pos.mpr h
  rw [List.getD_eq_getElem _ d' (by simp; omega)]
  simp only [List.length_map]
  rw [List.getElem_map, List.getD_eq_getElem re 0 (by omega)]

theorem take_filter_lt {α : Type} (p : α → Bool) (cs : List α) (i : ℕ) (d : α)
    (hi : i < cs.length) (hp : p (cs.getD i d) = true) :
    ((cs.take i).filter p).length < (cs.filter p).length := by
  have hsplit : cs = cs.take i ++ cs.drop i := (List.take_append_drop i cs).symm
  have hdrop : cs.drop i = cs[i] :: cs.drop (i + 1) := List.drop_eq_getElem_cons hi
  have hget : cs.getD i d = cs[i] := List.getD_eq_getElem cs d hi
  rw [hget] at hp
  conv_rhs => rw [hsplit, hdrop]
  rw [List.filter_append, List.filter_cons_of_pos hp, List.length_append]
  simp

namespace MergeLastOnlyBuffer

theorem maskSetLast_cons_true (r : List ℚ) (rows : List (List ℚ)) (mask : List Bool)
    (v : ℚ) (vals : List ℚ) :
    maskSetLast (r :: rows) (true :: mask) (v :: vals) =
      setLast r v :: maskSetLast rows mask vals := rfl

theorem maskSetLast_cons_false (r : List ℚ) (rows : List (List ℚ)) (mask : List Bool)
    (vals : List ℚ) :
    maskSetLast (r :: rows) (false :: mask) vals = r :: maskSetLast rows mask vals := rfl

theorem maskSetLast_spec (s : ℕ) :
    ∀ (cs : List ChanState) (buf d : List (List ℚ)),
    buf.length = (cs.filter (·.vis)).length →
    d.length = (cs.filter (fun c => c.src == s)).length →
    ∀ i, i < cs.length → (cs.getD i ⟨0, false⟩).vis = true →
    (maskSetLast buf ((cs.filter (·.vis)).map (fun c => c.src == s))
        ((((cs.filter (fun c => c.src == s)).zip d).filter (fun p => p.1.vis)).map
          (fun p => lastD p.2 0))).getD (((cs.take i).filter (·.vis)).length) [] =
      (if (cs.getD i ⟨0, false⟩).src = s then
        setLast (buf.getD (((cs.take i).filter (·.vis)).length) [])
          (lastD (d.getD (((cs.take i).filter (fun c => c.src == s)).length) []) 0)
      else buf.getD (((cs.take i).filter (·.vis)).length) []) := by
  intro cs
  induction cs with
  | nil =>
    intro buf d _ _ i hi _
    simp at hi
  | cons c cs ih =>
    intro buf d hb hd i hi hvis
    by_cases hcv : c.vis = true
    · have hfv : ((c :: cs).filter (·.vis)) = c :: cs.filter (·.vis) :=
        List.filter_cons_of_pos hcv
      obtain ⟨b0, buf', rfl⟩ : ∃ b0 buf', buf = b0 :: buf' := by
        cases buf with
        | nil =>
          rw [hfv] at hb
          simp at hb
        | cons x xs => exact ⟨x, xs, rfl⟩
      by_cases hcs : (c.src == s) = true
      · have hfs : ((c :: cs).filter (fun c => c.src == s)) =
            c :: cs.filter (fun c => c.src == s) := List.filter_cons_of_pos hcs
        obtain ⟨d0, d', rfl⟩ : ∃ d0 d', d = d0 :: d' := by
          cases d with
          | nil =>
            rw [hfs] at hd
            simp at hd
          | cons x xs => exact ⟨x, xs, rfl⟩
        have hmask : maskSetLast (b0 :: buf')
            (((c :: cs).filter (·.vis)).map (fun c => c.src == s))
            (((((c :: cs).filter (fun c => c.src == s)).zip (d0 :: d')).filter
              (fun p => p.1.vis)).map (fun p => lastD p.2 0)) =
            setLast b0 (lastD d0 0) :: maskSetLast buf'
              ((cs.filter (·.vis)).map (fun c => c.src == s))
              ((((cs.filter (fun c => c.src == s)).zip d').filter
                (fun p => p.1.vis)).map (fun p => lastD p.2 0)) := by
          rw [hfv, hfs]
          rw [List.map_cons, List.zip_cons_cons]
          rw [show (((c, d0) :: ((cs.filter (fun c => c.src == s)).zip d')).filter
                (fun p => p.1.vis)) =
              (c, d0) :: ((cs.filter (fun c => c.src == s)).zip d').filter
                (fun p => p.1.vis) from List.filter_cons_of_pos hcv]
          rw [List.map_cons]
          rw [show (c.src == s) = true from hcs]
          exact maskSetLast_cons_true _ _ _ _ _
        rw [hmask]
        cases i with
        | zero =>
          simp only [List.take_zero, List.filter_nil, List.length_nil, List.getD_cons_zero]
          simp only [List.getD_cons_zero] at hvis ⊢
          have hsrc : (c.src = s) := by simpa using hcs
          simp [hsrc]
        | succ j =>
          rw [List.take_succ_cons, List.filter_cons_of_pos hcv,
            show ((c :: (cs.take j)).filter (fun c => c.src == s)) =
              c :: (cs.take j).filter (fun c => c.src == s) from List.filter_cons_of_pos hcs]
          simp only [List.length_cons, List.getD_cons_succ]
          rw [ih buf' d' (by simpa [hfv] using hb) (by simpa [hfs] using hd) j
            (by simpa using hi) (by simpa using hvis)]
      · have hfs : ((c :: cs).filter (fun c => c.src == s)) =
            cs.filter (fun c => c.src == s) :=
          List.filter_cons_of_neg (by simpa using hcs)
        have hmask : maskSetLast (b0 :: buf')
            (((c :: cs).filter (·.vis)).map (fun c => c.src == s))
            (((((c :: cs).filter (fun c => c.src == s)).zip d).filter
              (fun p => p.1.vis)).map (fun p => lastD p.2 0)) =
            b0 :: maskSetLast buf'
              ((cs.filter (·.vis)).map (fun c => c.src == s))
              ((((cs.filter (fun c => c.src == s)).zip d).filter
                (fun p => p.1.vis)).map (fun p => lastD p.2 0)) := by
          rw [hfv, hfs, List.map_cons]
          rw [show (c.src == s) = false by simpa using hcs]
          exact maskSetLast_cons_false _ _ _ _
        rw [hmask]
        cases i with
        | zero =>
          simp only [List.take_zero, List.filter_nil, List.length_nil, List.getD_cons_zero]
          simp only [List.getD_cons_zero] at hvis ⊢
          have hsrc : ¬ (c.src = s) := by simpa using hcs
          simp [hsrc]
        | succ j =>
          rw [List.take_succ_cons, List.filter_cons_of_pos hcv,
            show ((c :: (cs.take j)).filter (fun c => c.src == s)) =
              (cs.take j).filter (fun c => c.src == s) from
              List.filter_cons_of_neg (by simpa using hcs)]
          simp only [List.length_cons, List.getD_cons_succ]
          rw [ih buf' d (by simpa [hfv] using hb) (by simpa [hfs] using hd) j
            (by simpa using hi) (by simpa using hvis)]
    · have hfv : ((c :: cs).filter (·.vis)) = cs.filter (·.vis) :=
        List.filter_cons_of_neg (by simpa using hcv)
      by_cases hcs : (c.src == s) = true
      · have hfs : ((c :: cs).filter (fun c => c.src == s)) =
            c :: cs.filter (fun c => c.src == s) := List.filter_cons_of_pos hcs
        obtain ⟨d0, d', rfl⟩ : ∃ d0 d', d = d0 :: d' := by
          cases d with
          | nil =>
            rw [hfs] at hd
            simp at hd
          | cons x xs => exact ⟨x, xs, rfl⟩
        have hvals : ((((c :: cs).filter (fun c => c.src == s)).zip (d0 :: d')).filter
              (fun p => p.1.vis)).map (fun p => lastD p.2 0) =
            (((cs.filter (fun c => c.src == s)).zip d').filter
              (fun p => p.1.vis)).map (fun p => lastD p.2 0) := by
          rw [hfs, List.zip_cons_cons]
          rw [show (((c, d0) :: ((cs.filter (fun c => c.src == s)).zip d')).filter
                (fun p => p.1.vis)) =
              ((cs.filter (fun c => c.src == s)).zip d').filter (fun p => p.1.vis) from
              List.filter_cons_of_neg (by simpa using hcv)]
        rw [hfv, hvals]
        cases i with
        | zero =>
          simp only [List.getD_cons_zero] at hvis
          exact absurd hvis hcv
        | succ j =>
          rw [List.take_succ_cons, List.filter_cons_of_neg (by simpa using hcv),
            show ((c :: (cs.take j)).filter (fun c => c.src == s)) =
              c :: (cs.take j).filter (fun c => c.src == s) from List.filter_cons_of_pos hcs]
          simp only [List.length_cons, List.getD_cons_succ]
          rw [ih buf d' (by simpa [hfv] using hb) (by simpa [hfs] using hd) j
            (by simpa using hi) (by simpa using hvis)]
      · have hfs : ((c :: cs).filter (fun c => c.src == s)) =
            cs.filter (fun c => c.src == s) :=
          List.filter_cons_of_neg (by simpa using hcs)
        rw [hfv, hfs]
        cases i with
        | zero =>
          simp only [List.getD_cons_zero] at hvis
          exact absurd hvis hcv
        | succ j =>
          rw [List.take_succ_cons, List.filter_cons_of_neg (by simpa using hcv),
            show ((c :: (cs.take j)).filter (fun c => c.src == s)) =
              (cs.take j).filter (fun c => c.src == s) from
              List.filter_cons_of_neg (by simpa using hcs)]
          simp only [List.getD_cons_succ]
          rw [ih buf d (by simpa [hfv] using hb) (by simpa [hfs] using hd) j
            (by simpa using hi) (by simpa using hvis)]

end MergeLastOnlyBuffer

theorem maskSetLast_length : ∀ (rows : List (List ℚ)) (mask : List Bool) (vals : List ℚ),
    (MergeLastOnlyBuffer.maskSetLast rows mask vals).length = rows.length := by
  intro rows
  induction rows with
  | nil =>
    intro mask vals
    cases mask <;> rfl
  | cons r rows ih =>
    intro mask vals
    cases mask with
    | nil => rfl
    | cons b mask =>
      cases b with
      | false =>
        rw [MergeLastOnlyBuffer.maskSetLast_cons_false]
        simp [ih]
      | true =>
        cases vals with
        | nil =>
          show (r :: MergeLastOnlyBuffer.maskSetLast rows mask []).length = _
          simp [ih]
        | cons v vals =>
          rw [MergeLastOnlyBuffer.maskSetLast_cons_true]
          simp [ih]

/-- C8: with non-empty timestamps, a concrete `source_id`, and no reset
(the buffer already has `vis.sum()` rows of nonzero size), `update` rewrites
exactly the visible slots owned by `source_id` — each receives the value of the
largest-timestamp incoming sample from its own data row — leaves every other
visible slot untouched, keeps the buffer width, and the single stored
timestamp becomes the largest incoming timestamp. -/
theorem c8_merge_frame (st : MergeLastOnlyBuffer) (data : List (List ℚ))
    (timestamps : List ℚ) (cs : List ChanState) (s : ℕ)
    (hts : timestamps ≠ [])
    (hsz : mSize st.data ≠ 0)
    (hw : st.data.length = visCount cs)
    (hd : data.length = (cs.filter (fun c => c.src == s)).length)
    (htv : st.tvec ≠ []) :
    ∃ j, j < timestamps.length ∧ (∀ t ∈ timestamps, t ≤ timestamps.getD j 0) ∧
      (st.update data timestamps cs (some s)).tvec =
        setLast st.tvec (timestamps.getD j 0) ∧
      lastD (st.update data timestamps cs (some s)).tvec 0 = timestamps.getD j 0 ∧
      (st.update data timestamps cs (some s)).data.length = st.data.length ∧
      ∀ i, i < cs.length → (cs.getD i ⟨0, false⟩).vis = true →
        ((cs.getD i ⟨0, false⟩).src = s →
          (st.update data timestamps cs (some s)).data.getD
              (((cs.take i).filter (·.vis)).length) [] =
            setLast (st.data.getD (((cs.take i).filter (·.vis)).length) [])
              ((data.getD (((cs.take i).filter (fun c => c.src == s)).length) []).getD
                (lastD (argsort timestamps) 0) 0)) ∧
        ((cs.getD i ⟨0, false⟩).src ≠ s →
          (st.update data timestamps cs (some s)).data.getD
              (((cs.take i).filter (·.vis)).length) [] =
            st.data.getD (((cs.take i).filter (·.vis)).length) []) := by
  have hlen : 0 < timestamps.length := List.length_pos.mpr hts
  have hre : argsort timestamps ≠ [] := by
    have := argsort_length timestamps
    intro h
    rw [h] at this
    simp at this
    omega
  set j := lastD (argsort timestamps) 0 with hj
  have hjmem : j ∈ argsort timestamps := by
    rw [hj]
    unfold lastD
    rw [List.getD_eq_getElem _ _ (by
      have h2 := argsort_length timestamps
      omega)]
    exact List.getElem_mem _
  have hjlt : j < timestamps.length := argsort_mem_lt hjmem
  have hmaxts : lastD (reorder (argsort timestamps) timestamps 0) 0 =
      timestamps.getD j 0 := lastD_reorder hre
  have hmax : ∀ t ∈ timestamps, t ≤ timestamps.getD j 0 := by
    intro t ht
    rw [← hmaxts]
    exact pairwise_forall_le_lastD (reorder_argsort_pairwise timestamps) 0 t
      ((reorder_argsort_perm timestamps).mem_iff.mpr ht)
  have hupd : st.update data timestamps cs (some s) =
      { data := MergeLastOnlyBuffer.maskSetLast st.data
          ((cs.filter (·.vis)).map (fun c => c.src == s))
          ((((cs.filter (fun c => c.src == s)).zip
            (data.map (fun row => reorder (argsort timestamps) row 0))).filter
              (fun p => p.1.vis)).map (fun p => lastD p.2 0)),
        tvec := setLast st.tvec (timestamps.getD j 0) } := by
    simp only [MergeLastOnlyBuffer.update, if_neg hts]
    rw [if_neg (by push_neg; exact ⟨hsz, by rw [hw]⟩)]
    rw [hmaxts]
  have hdata : (st.update data timestamps cs (some s)).data =
      MergeLastOnlyBuffer.maskSetLast st.data
        ((cs.filter (·.vis)).map (fun c => c.src == s))
        ((((cs.filter (fun c => c.src == s)).zip
          (data.map (fun row => reorder (argsort timestamps) row 0))).filter
            (fun p => p.1.vis)).map (fun p => lastD p.2 0)) := by
    rw [hupd]
  have htvec : (st.update data timestamps cs (some s)).tvec =
      setLast st.tvec (timestamps.getD j 0) := by
    rw [hupd]
  refine ⟨j, hjlt, hmax, htvec, ?_, ?_, ?_⟩
  · rw [htvec]
    exact setLast_lastD _ 0 htv
  · rw [hdata]
    exact maskSetLast_length _ _ _
  · intro i hi hvis
    have hspec := MergeLastOnlyBuffer.maskSetLast_spec s cs st.data
      (data.map (fun row => reorder (argsort timestamps) row 0)) hw
      (by simpa using hd) i hi hvis
    constructor
    · intro hsrc
      have hq : ((cs.take i).filter (fun c => c.src == s)).length < data.length := by
        rw [hd]
        exact take_filter_lt (fun c => c.src == s) cs i ⟨0, false⟩ hi (by simpa using hsrc)
      have hrow : (data.map (fun row => reorder (argsort timestamps) row 0)).getD
          (((cs.take i).filter (fun c => c.src == s)).length) [] =
          reorder (argsort timestamps)
            (data.getD (((cs.take i).filter (fun c => c.src == s)).length) []) 0 := by
        rw [List.getD_eq_getElem _ _ (by simpa using hq), List.getElem_map,
          List.getD_eq_getElem data [] hq]
      rw [hdata, hspec, if_pos hsrc, hrow, lastD_reorder hre]
    · intro hsrc
      rw [hdata, hspec, if_neg hsrc]

theorem c8_witness :
    (([(5 : ℚ), 4] : List ℚ) ≠ [] ∧
      mSize ([[(0 : ℚ), 0], [0, 9], [0, 0]] : List (List ℚ)) ≠ 0 ∧
      ([[(0 : ℚ), 0], [0, 9], [0, 0]] : List (List ℚ)).length =
        visCount [⟨0, true⟩, ⟨1, true⟩, ⟨0, true⟩] ∧
      ([[(1 : ℚ), 5], [2, 6]] : List (List ℚ)).length =
        (([⟨0, true⟩, ⟨1, true⟩, ⟨0, true⟩] : List ChanState).filter
          (fun c => c.src == 0)).length ∧
      ([(3 : ℚ)] : List ℚ) ≠ []) ∧
    (∃ j, j < ([(5 : ℚ), 4] : List ℚ).length ∧
      (∀ t ∈ ([(5 : ℚ), 4] : List ℚ), t ≤ ([(5 : ℚ), 4] : List ℚ).getD j 0) ∧
      (MergeLastOnlyBuffer.update ⟨[[0, 0], [0, 9], [0, 0]], [3]⟩ [[1, 5], [2, 6]] [5, 4]
          [⟨0, true⟩, ⟨1, true⟩, ⟨0, true⟩] (some 0)).tvec =
        setLast [(3 : ℚ)] (([(5 : ℚ), 4] : List ℚ).getD j 0) ∧
      lastD (MergeLastOnlyBuffer.update ⟨[[0, 0], [0, 9], [0, 0]], [3]⟩ [[1, 5], [2, 6]]
          [5, 4] [⟨0, true⟩, ⟨1, true⟩, ⟨0, true⟩] (some 0)).tvec 0 =
        ([(5 : ℚ), 4] : List ℚ).getD j 0 ∧
      (MergeLastOnlyBuffer.update ⟨[[0, 0], [0, 9], [0, 0]], [3]⟩ [[1, 5], [2, 6]] [5, 4]
          [⟨0, true⟩, ⟨1, true⟩, ⟨0, true⟩] (some 0)).data.length =
        ([[(0 : ℚ), 0], [0, 9], [0, 0]] : List (List ℚ)).length ∧
      ∀ i, i < ([⟨0, true⟩, ⟨1, true⟩, ⟨0, true⟩] : List ChanState).length →
        (([⟨0, true⟩, ⟨1, true⟩, ⟨0, true⟩] : List ChanState).getD i ⟨0, false⟩).vis = true →
        ((([⟨0, true⟩, ⟨1, true⟩, ⟨0, true⟩] : List ChanState).getD i ⟨0, false⟩).src = 0 →
          (MergeLastOnlyBuffer.update ⟨[[0, 0], [0, 9], [0, 0]], [3]⟩ [[1, 5], [2, 6]] [5, 4]
              [⟨0, true⟩, ⟨1, true⟩, ⟨0, true⟩] (some 0)).data.getD
              (((([⟨0, true⟩, ⟨1, true⟩, ⟨0, true⟩] : List ChanState).take i).filter
                (·.vis)).length) [] =
            setLast (([[(0 : ℚ), 0], [0, 9], [0, 0]] : List (List ℚ)).getD
                (((([⟨0, true⟩, ⟨1, true⟩, ⟨0, true⟩] : List ChanState).take i).filter
                  (·.vis)).length) [])
              ((([[(1 : ℚ), 5], [2, 6]] : List (List ℚ)).getD
                  (((([⟨0, true⟩, ⟨1, true⟩, ⟨0, true⟩] : List ChanState).take i).filter
                    (fun c => c.src == 0)).length) []).getD
                (lastD (argsort [5, 4]) 0) 0)) ∧
        ((([⟨0, true⟩, ⟨1, true⟩, ⟨0, true⟩] : List ChanState).getD i ⟨0, false⟩).src ≠ 0 →
          (MergeLastOnlyBuffer.update ⟨[[0, 0], [0, 9], [0, 0]], [3]⟩ [[1, 5], [2, 6]] [5, 4]
              [⟨0, true⟩, ⟨1, true⟩, ⟨0, true⟩] (some 0)).data.getD
              (((([⟨0, true⟩, ⟨1, true⟩, ⟨0, true⟩] : List ChanState).take i).filter
                (·.vis)).length) [] =
            ([[(0 : ℚ), 0], [0, 9], [0, 0]] : List (List ℚ)).getD
              (((([⟨0, true⟩, ⟨1, true⟩, ⟨0, true⟩] : List ChanState).take i).filter
                (·.vis)).length) [])) :=
  ⟨⟨by decide, by decide, by decide, by decide, by decide⟩,
    c8_merge_frame ⟨[[0, 0], [0, 9], [0, 0]], [3]⟩ [[1, 5], [2, 6]] [5, 4]
      [⟨0, true⟩, ⟨1, true⟩, ⟨0, true⟩] 0 (by decide) (by decide) (by decide) (by decide)
      (by decide)⟩

theorem headD_eq_getD_zero (l : List α) (d : α) : l.headD d = l.getD 0 d := by
  cases l <;> rfl

theorem getD_drop_one (l : List α) (e : ℕ) (d : α) :
    (l.drop 1).getD e d = l.getD (e + 1) d := by
  cases l <;> rfl

theorem getD_set (l : List α) (j c : ℕ) (v d : α) :
    (l.set j v).getD c d = if j = c ∧ c < l.length then v else l.getD c d := by
  by_cases hc : c < l.length
  · rw [List.getD_eq_getElem _ _ (by simpa using hc), List.getD_eq_getElem _ _ hc]
    by_cases hj : j = c
    · subst hj
      simp [List.getElem_set_self, hc]
    · rw [List.getElem_set_ne hj]
      simp [hj]
  · rw [List.getD_eq_default _ _ (by simpa using hc), List.getD_eq_default _ _ (by omega)]
    simp [hc]

theorem getD_map_getD {α β : Type} (f : α → β) (l : List α) (r : ℕ) (d : α) (d' : β)
    (hr : r < l.length) : (l.map f).getD r d' = f (l.getD r d) := by
  rw [List.getD_eq_getElem _ _ (by simpa using hr), List.getElem_map,
    List.getD_eq_getElem _ _ hr]

theorem setCol_length (m : List (List Val)) (j : ℕ) (col : List Val)
    (hc : col.length = m.length) : (setCol m j col).length = m.length := by
  simp [setCol, hc]

theorem setCol_getD_row (m : List (List Val)) (j : ℕ) (col : List Val) (r : ℕ)
    (hc : col.length = m.length) (hr : r < m.length) :
    (setCol m j col).getD r [] = (m.getD r []).set j (col.getD r Val.nan) := by
  rw [List.getD_eq_getElem _ _ (by simp [setCol, hc]; omega)]
  simp only [setCol, List.getElem_zipWith]
  rw [List.getD_eq_getElem _ _ hr, List.getD_eq_getElem _ _ (by omega)]

theorem setCol_getD_row_out (m : List (List Val)) (j : ℕ) (col : List Val) (r : ℕ)
    (hc : col.length = m.length) (hr : ¬ r < m.length) :
    (setCol m j col).getD r [] = [] := by
  rw [List.getD_eq_default]
  rw [setCol_length m j col hc]
  omega

theorem assignCols_nil (m vals : List (List Val)) : assignCols m [] vals = m := rfl

theorem assignCols_cons (m : List (List Val)) (j : ℕ) (js : List ℕ)
    (vals : List (List Val)) :
    assignCols m (j :: js) vals =
      assignCols (setCol m j (vals.map (fun r => r.getD 0 Val.nan))) js
        (vals.map (fun r => r.drop 1)) := rfl

theorem assignCols_length : ∀ (inds : List ℕ) (m vals : List (List Val)),
    vals.length = m.length → (assignCols m inds vals).length = m.length := by
  intro inds
  induction inds with
  | nil => intro m vals _; rfl
  | cons j js ih =>
    intro m vals hv
    rw [assignCols_cons]
    have hcol : (vals.map (fun r => r.getD 0 Val.nan)).length = m.length := by simp [hv]
    rw [ih _ _ (by rw [setCol_length _ _ _ hcol]; simp [hv]), setCol_length _ _ _ hcol]

theorem assignCols_row_length : ∀ (inds : List ℕ) (m vals : List (List Val)),
    vals.length = m.length → ∀ r,
    ((assignCols m inds vals).getD r []).length = (m.getD r []).length := by
  intro inds
  induction inds with
  | nil => intro m vals _ r; rfl
  | cons j js ih =>
    intro m vals hv r
    rw [assignCols_cons]
    have hcol : (vals.map (fun r => r.getD 0 Val.nan)).length = m.length := by simp [hv]
    rw [ih _ _ (by rw [setCol_length _ _ _ hcol]; simp [hv]) r]
    by_cases hr : r < m.length
    · rw [setCol_getD_row _ _ _ _ hcol hr]
      simp
    · rw [setCol_getD_row_out _ _ _ _ hcol hr, List.getD_eq_default m [] (by omega)]

theorem assignCols_notin : ∀ (inds : List ℕ) (m vals : List (List Val)),
    vals.length = m.length → ∀ (c r : ℕ), c ∉ inds →
    ((assignCols m inds vals).getD r []).getD c Val.nan =
      (m.getD r []).getD c Val.nan := by
  intro inds
  induction inds with
  | nil => intro m vals _ c r _; rfl
  | cons j js ih =>
    intro m vals hv c r hc
    rw [assignCols_cons]
    have hcol : (vals.map (fun r => r.getD 0 Val.nan)).length = m.length := by simp [hv]
    rw [ih _ _ (by rw [setCol_length _ _ _ hcol]; simp [hv]) c r (by
      intro hmem
      exact hc (List.mem_cons_of_mem _ hmem))]
    by_cases hr : r < m.length
    · rw [setCol_getD_row _ _ _ _ hcol hr, getD_set]
      have hjc : ¬ j = c := by
        intro h
        exact hc (h ▸ List.mem_cons_self j js)
      simp [hjc]
    · rw [setCol_getD_row_out _ _ _ _ hcol hr, List.getD_eq_default m [] (by omega)]

theorem assignCols_in : ∀ (inds : List ℕ), inds.Pairwise (· < ·) →
    ∀ (m vals : List (List Val)) (e r : ℕ), e < inds.length →
    vals.length = m.length → inds.getD e 0 < (m.getD r []).length →
    ((assignCols m inds vals).getD r []).getD (inds.getD e 0) Val.nan =
      (vals.getD r []).getD e Val.nan := by
  intro inds
  induction inds with
  | nil =>
    intro _ m vals e r he
    simp at he
  | cons j js ih =>
    intro hinc m vals e r he hv hcl
    have hr : r < m.length := by
      by_contra hr
      rw [List.getD_eq_default m [] (by omega)] at hcl
      simp at hcl
    have hcol : (vals.map (fun r => r.getD 0 Val.nan)).length = m.length := by simp [hv]
    rcases List.pairwise_cons.mp hinc with ⟨hj, hinc'⟩
    rw [assignCols_cons]
    cases e with
    | zero =>
      have hjns : j ∉ js := by
        intro hmem
        exact absurd (hj j hmem) (lt_irrefl j)
      simp only [List.getD_cons_zero] at hcl ⊢
      rw [assignCols_notin js _ _ (by rw [setCol_length _ _ _ hcol]; simp [hv]) j r hjns]
      rw [setCol_getD_row _ _ _ _ hcol hr, getD_set]
      rw [if_pos ⟨rfl, hcl⟩]
      exact getD_map_getD _ vals r [] Val.nan (by omega)
    | succ e =>
      simp only [List.getD_cons_succ] at hcl ⊢
      rw [ih hinc' (setCol m j (vals.map (fun r => r.getD 0 Val.nan)))
        (vals.map (fun r => r.drop 1)) e r (by simpa using he)
        (by rw [setCol_length _ _ _ hcol]; simp [hv])
        (by rw [setCol_getD_row _ _ _ _ hcol hr]; simpa using hcl)]
      rw [getD_map_getD _ vals r [] [] (by omega), getD_drop_one]

theorem foldl_set_length : ∀ (idx : List ℕ) (acc : List ℕ),
    (idx.foldl (fun a j => a.set j j) acc).length = acc.length := by
  intro idx
  induction idx with
  | nil => intro acc; rfl
  | cons j js ih =>
    intro acc
    rw [List.foldl_cons, ih]
    simp

theorem foldl_set_getD : ∀ (idx : List ℕ) (acc : List ℕ) (k d : ℕ),
    (∀ j ∈ idx, j < acc.length) →
    (idx.foldl (fun a j => a.set j j) acc).getD k d =
      if k ∈ idx then k else acc.getD k d := by
  intro idx
  induction idx with
  | nil =>
    intro acc k d _
    simp
  | cons j js ih =>
    intro acc k d hb
    rw [List.foldl_cons, ih _ k d (by
      intro x hx
      have := hb x (List.mem_cons_of_mem _ hx)
      simpa using this)]
    by_cases hk : k ∈ js
    · simp [hk, List.mem_cons_of_mem _ hk]
    · rw [if_neg hk, getD_set]
      by_cases hjk : j = k
      · subst hjk
        rw [if_pos ⟨rfl, hb j (List.mem_cons_self j js)⟩, if_pos (List.mem_cons_self j js)]
      · rw [if_neg (by
          intro hc
          exact hjk hc.1)]
        rw [if_neg (by
          intro hc
          rcases List.mem_cons.mp hc with h | h
          · exact hjk h.symm
          · exact hk h)]

theorem cummax_length (l : List ℕ) : ∀ c, (cummax c l).length = l.length := by
  induction l with
  | nil => intro c; rfl
  | cons x xs ih =>
    intro c
    rw [cummax, List.length_cons, List.length_cons, ih]

theorem cummax_getD : ∀ (l : List ℕ) (c k d : ℕ), k < l.length →
    (cummax c l).getD k d = (l.take (k + 1)).foldl max c := by
  intro l
  induction l with
  | nil =>
    intro c k d hk
    simp at hk
  | cons x xs ih =>
    intro c k d hk
    rw [cummax]
    cases k with
    | zero => simp
    | succ k =>
      rw [List.getD_cons_succ, ih _ k d (by simpa using hk)]
      simp

theorem le_foldl_max_init : ∀ (l : List ℕ) (c : ℕ), c ≤ l.foldl max c := by
  intro l
  induction l with
  | nil => intro c; simp
  | cons x xs ih =>
    intro c
    rw [List.foldl_cons]
    exact le_trans (le_max_left c x) (ih _)

theorem le_foldl_max_mem : ∀ (l : List ℕ) (c x : ℕ), x ∈ l → x ≤ l.foldl max c := by
  intro l
  induction l with
  | nil =>
    intro c x hx
    simp at hx
  | cons y ys ih =>
    intro c x hx
    rw [List.foldl_cons]
    rcases List.mem_cons.mp hx with h | h
    · subst h
      exact le_trans (le_max_right c x) (le_foldl_max_init _ _)
    · exact ih _ x h

theorem foldl_max_cases : ∀ (l : List ℕ) (c : ℕ), l.foldl max c = c ∨ l.foldl max c ∈ l := by
  intro l
  induction l with
  | nil => intro c; left; rfl
  | cons x xs ih =>
    intro c
    rw [List.foldl_cons]
    rcases ih (max c x) with h | h
    · rcases max_cases c x with ⟨he, _⟩ | ⟨he, _⟩
      · left
        rw [h, he]
      · right
        rw [h, he]
        exact List.mem_cons_self x xs
    · right
      exact List.mem_cons_of_mem _ h

theorem pairwise_le_lastD_nat {l : List ℕ} (h : l.Pairwise (· ≤ ·)) (d : ℕ) :
    ∀ x ∈ l, x ≤ lastD l d := by
  induction l with
  | nil => simp
  | cons a l ih =>
    rcases List.pairwise_cons.mp h with ⟨ha, hl⟩
    intro x hx
    rcases List.mem_cons.mp hx with hxa | hxl
    · subst hxa
      cases l with
      | nil => simp [lastD]
      | cons b m =>
        refine le_trans (ha b (by simp)) ?_
        have := ih hl b (by simp)
        simpa [lastD] using this
    · have := ih hl x hxl
      cases l with
      | nil => simp at hxl
      | cons b m => simpa [lastD] using this

theorem sorted_filter_le_take (k : ℕ) : ∀ (l : List ℕ), l.Pairwise (· ≤ ·) →
    l.filter (fun j => decide (j ≤ k)) =
      l.take (l.countP (fun j => decide (j ≤ k))) := by
  intro l
  induction l with
  | nil => intro _; rfl
  | cons x xs ih =>
    intro h
    rcases List.pairwise_cons.mp h with ⟨hx, hxs⟩
    by_cases hxk : x ≤ k
    · rw [List.filter_cons_of_pos (by simpa using hxk),
        List.countP_cons_of_pos _ _ (by simpa using hxk)]
      rw [List.take_succ_cons, ih hxs]
    · rw [List.filter_cons_of_neg (by simpa using hxk),
        List.countP_cons_of_neg _ _ (by simpa using hxk)]
      have hall : xs.filter (fun j => decide (j ≤ k)) = [] := by
        rw [List.filter_eq_nil_iff]
        intro a ha
        simp only [decide_eq_true_eq]
        intro hak
        exact hxk (le_trans (hx a ha) hak)
      have hcnt : xs.countP (fun j => decide (j ≤ k)) = 0 := by
        rw [List.countP_eq_length_filter, hall]
        rfl
      rw [hcnt, ih hxs, hcnt]
      rfl

theorem gatherCols_getD_getD (m : List (List Val)) (inds : List ℕ) (r k : ℕ)
    (hr : r < m.length) (hk : k < inds.length) :
    ((gatherCols m inds).getD r []).getD k Val.nan =
      (m.getD r []).getD (inds.getD k 0) Val.nan := by
  have h1 : (gatherCols m inds).getD r [] =
      inds.map (fun i => (m.getD r []).getD i Val.nan) := by
    rw [gatherCols, List.getD_eq_getElem _ _ (by simpa using hr), List.getElem_map,
      List.getD_eq_getElem m [] hr]
  rw [h1, List.getD_eq_getElem _ _ (by simpa using hk), List.getElem_map,
    List.getD_eq_getElem inds 0 hk]

theorem gatherCols_length (m : List (List Val)) (inds : List ℕ) :
    (gatherCols m inds).length = m.length := by
  simp [gatherCols]

namespace TimeSeriesBuffer

theorem effSrate_zero (st : TimeSeriesBuffer) (hsr : st.srate = some 0) :
    st.effSrate = IRREG_RATE_OVERRIDE := by
  rw [effSrate, if_pos hsr]

theorem synthFillTvec_length (st : TimeSeriesBuffer) (ts : List ℚ) :
    (st.synthFillTvec ts).length = st.synthNFill ts := by
  simp [synthFillTvec]

theorem synthFillTvec_getD (st : TimeSeriesBuffer) (ts : List ℚ) (k : ℕ)
    (hk : k < st.synthNFill ts) :
    (st.synthFillTvec ts).getD k 0 =
      st.lastWriteTime + ((1 + k : ℕ) : ℚ) / st.effSrate := by
  rw [synthFillTvec, List.getD_eq_getElem _ _ (by simpa using hk)]
  simp

theorem synthIdx_length (st : TimeSeriesBuffer) (ts : List ℚ) :
    (st.synthIdx ts).length = ts.length := by
  simp [synthIdx]

theorem lastD_mem {l : List ℚ} (h : l ≠ []) : lastD l 0 ∈ l := by
  unfold lastD
  have : 0 < l.length := List.length_pos.mpr h
  rw [List.getD_eq_getElem _ _ (by omega)]
  exact List.getElem_mem _

theorem synthNFill_bounds (st : TimeSeriesBuffer) (ts : List ℚ)
    (hsr : st.srate = some 0) (hT : st.lastWriteTime < lastD ts 0) :
    (lastD ts 0 - st.lastWriteTime) * IRREG_RATE_OVERRIDE ≤ (st.synthNFill ts : ℚ) ∧
    (st.synthNFill ts : ℚ) < (lastD ts 0 - st.lastWriteTime) * IRREG_RATE_OVERRIDE + 1 ∧
    0 < st.synthNFill ts := by
  have heff := effSrate_zero st hsr
  rw [synthNFill, heff]
  have hqpos : 0 < (lastD ts 0 - st.lastWriteTime) * IRREG_RATE_OVERRIDE := by
    apply mul_pos
    · linarith
    · rw [IRREG_RATE_OVERRIDE]
      norm_num
  refine ⟨le_ceilNat (le_of_lt hqpos), ?_, ceilNat_pos hqpos⟩
  rw [ceilNat]
  have hceil : (0 : ℤ) ≤ ⌈(lastD ts 0 - st.lastWriteTime) * IRREG_RATE_OVERRIDE⌉ :=
    Int.ceil_nonneg (le_of_lt hqpos)
  have hlt := Int.ceil_lt_add_one ((lastD ts 0 - st.lastWriteTime) * IRREG_RATE_OVERRIDE)
  have hcast : ((⌈(lastD ts 0 - st.lastWriteTime) * IRREG_RATE_OVERRIDE⌉.toNat : ℕ) : ℚ) =
      ((⌈(lastD ts 0 - st.lastWriteTime) * IRREG_RATE_OVERRIDE⌉ : ℤ) : ℚ) := by
    exact_mod_cast congrArg (fun z : ℤ => (z : ℚ)) (Int.toNat_of_nonneg hceil)
  rw [hcast]
  exact hlt

theorem synthIdx_lt (st : TimeSeriesBuffer) (ts : List ℚ)
    (hsr : st.srate = some 0) (hts : ts ≠ [])
    (hsorted : ts.Pairwise (· ≤ ·))
    (hfresh : ∀ t ∈ ts, st.lastWriteTime < t) :
    ∀ e ∈ st.synthIdx ts, e < st.synthNFill ts := by
  have heff := effSrate_zero st hsr
  have hTmem : lastD ts 0 ∈ ts := lastD_mem hts
  have hT : st.lastWriteTime < lastD ts 0 := hfresh _ hTmem
  obtain ⟨hNle, _, hNpos⟩ := synthNFill_bounds st ts hsr hT
  have hmax : ∀ t ∈ ts, t ≤ lastD ts 0 := pairwise_forall_le_lastD hsorted 0
  intro e he
  rw [synthIdx] at he
  obtain ⟨t, ht, rfl⟩ := List.mem_map.mp he
  -- the last fill sample is ≥ the largest timestamp, so it is never counted
  have hlastval : (st.synthFillTvec ts).getD (st.synthNFill ts - 1) 0 =
      st.lastWriteTime + ((st.synthNFill ts : ℕ) : ℚ) / IRREG_RATE_OVERRIDE := by
    rw [synthFillTvec_getD st ts _ (by omega), heff]
    congr 2
    have : 1 + (st.synthNFill ts - 1) = st.synthNFill ts := by omega
    rw [this]
  have hlast_ge : ¬ ((st.synthFillTvec ts).getD (st.synthNFill ts - 1) 0 < lastD ts 0) := by
    have h1000 : IRREG_RATE_OVERRIDE = (1000 : ℚ) := rfl
    rw [hlastval, not_lt, h1000]
    have hNle2 := hNle
    rw [h1000] at hNle2
    linarith
  have hmem : (st.synthFillTvec ts).getD (st.synthNFill ts - 1) 0 ∈ st.synthFillTvec ts := by
    rw [List.getD_eq_getElem _ _ (by rw [synthFillTvec_length]; omega)]
    exact List.getElem_mem _
  have hcnt_lt : (st.synthFillTvec ts).countP (fun x => decide (x < lastD ts 0)) <
      (st.synthFillTvec ts).length := by
    rcases lt_or_eq_of_le (List.countP_le_length (fun x => decide (x < lastD ts 0))) with h | h
    · exact h
    · exfalso
      have hall := List.countP_eq_length.mp h
      have := hall _ hmem
      simp only [decide_eq_true_eq] at this
      exact hlast_ge this
  have hmono : ssLeft (st.synthFillTvec ts) t ≤
      (st.synthFillTvec ts).countP (fun x => decide (x < lastD ts 0)) := by
    rw [ssLeft]
    apply List.countP_mono_left
    intro a _ ha
    simp only [decide_eq_true_eq] at ha ⊢
    exact lt_of_lt_of_le ha (hmax t ht)
  calc ssLeft (st.synthFillTvec ts) t
      ≤ (st.synthFillTvec ts).countP (fun x => decide (x < lastD ts 0)) := hmono
    _ < (st.synthFillTvec ts).length := hcnt_lt
    _ = st.synthNFill ts := synthFillTvec_length st ts

end TimeSeriesBuffer

theorem getD_replicate {α : Type} (n i : ℕ) (x : α) : (List.replicate n x).getD i x = x := by
  by_cases hi : i < n
  · rw [List.getD_eq_getElem _ _ (by simpa using hi), List.getElem_replicate]
  · rw [List.getD_eq_default _ _ (by simpa using hi)]

theorem lastD_memD {α : Type} {l : List α} (d : α) (h : l ≠ []) : lastD l d ∈ l := by
  unfold lastD
  have : 0 < l.length := List.length_pos.mpr h
  rw [List.getD_eq_getElem _ _ (by omega)]
  exact List.getElem_mem _

theorem prev_getD_event (idx : List ℕ) (N k : ℕ) (hb : ∀ j ∈ idx, j < N) (hk : k < N)
    (hinc : idx.Pairwise (· < ·)) :
    (cummax 0 (idx.foldl (fun a j => a.set j j) (List.replicate N 0))).getD k 0 =
      if (idx.filter (fun j => decide (j ≤ k))) = [] then 0
      else lastD (idx.filter (fun j => decide (j ≤ k))) 0 := by
  have hplen : (idx.foldl (fun a j => a.set j j) (List.replicate N 0)).length = N := by
    rw [foldl_set_length]
    simp
  have hpk : ∀ i, (idx.foldl (fun a j => a.set j j) (List.replicate N 0)).getD i 0 =
      if i ∈ idx then i else 0 := by
    intro i
    rw [foldl_set_getD idx _ i 0 (by
      intro j hj
      simpa using hb j hj)]
    rw [getD_replicate]
  rw [cummax_getD _ 0 k 0 (by omega)]
  have htake_elems : ∀ x ∈ (idx.foldl (fun a j => a.set j j) (List.replicate N 0)).take (k + 1),
      x = 0 ∨ (x ∈ idx ∧ x ≤ k) := by
    intro x hx
    obtain ⟨i, hi, hxi⟩ := List.mem_iff_getElem.mp hx
    have hilen : i < k + 1 := by
      have := hi
      rw [List.length_take] at this
      omega
    have hiN : i < N := by
      have := hi
      rw [List.length_take] at this
      omega
    rw [List.getElem_take] at hxi
    rw [← List.getD_eq_getElem _ 0 (by omega)] at hxi
    rw [hpk i] at hxi
    by_cases hmem : i ∈ idx
    · right
      rw [if_pos hmem] at hxi
      subst hxi
      exact ⟨hmem, by omega⟩
    · left
      rw [if_neg hmem] at hxi
      omega
  by_cases hF : (idx.filter (fun j => decide (j ≤ k))) = []
  · rw [if_pos hF]
    have hnone : ∀ j ∈ idx, ¬ j ≤ k := by
      intro j hj hjk
      have := List.filter_eq_nil_iff.mp hF j hj
      simp [hjk] at this
    rcases foldl_max_cases ((idx.foldl (fun a j => a.set j j) (List.replicate N 0)).take (k + 1)) 0
      with h | h
    · exact h
    · rcases htake_elems _ h with h0 | ⟨hmem, hle⟩
      · rw [← h0] at h
        omega
      · exact absurd hle (hnone _ hmem)
  · rw [if_neg hF]
    set js := lastD (idx.filter (fun j => decide (j ≤ k))) 0 with hjs
    have hjsF : js ∈ idx.filter (fun j => decide (j ≤ k)) := lastD_memD 0 hF
    have hjsidx : js ∈ idx := List.mem_of_mem_filter hjsF
    have hjsk : js ≤ k := by
      have := List.of_mem_filter hjsF
      simpa using this
    have hjsmax : ∀ j ∈ idx, j ≤ k → j ≤ js := by
      intro j hj hjk
      have hjF : j ∈ idx.filter (fun j => decide (j ≤ k)) :=
        List.mem_filter.mpr ⟨hj, by simpa using hjk⟩
      have hpw : (idx.filter (fun j => decide (j ≤ k))).Pairwise (· ≤ ·) :=
        List.Pairwise.filter _ (hinc.imp le_of_lt)
      exact pairwise_le_lastD_nat hpw 0 j hjF
    have hjsN : js < N := hb _ hjsidx
    have hub : ∀ x ∈ (idx.foldl (fun a j => a.set j j) (List.replicate N 0)).take (k + 1),
        x ≤ js := by
      intro x hx
      rcases htake_elems x hx with h0 | ⟨hmem, hle⟩
      · omega
      · exact hjsmax _ hmem hle
    have hlb : js ∈ (idx.foldl (fun a j => a.set j j) (List.replicate N 0)).take (k + 1) := by
      apply List.mem_iff_getElem.mpr
      refine ⟨js, by rw [List.length_take]; omega, ?_⟩
      rw [List.getElem_take, ← List.getD_eq_getElem _ 0 (by omega), hpk js, if_pos hjsidx]
    have h1 := le_foldl_max_mem _ 0 _ hlb
    have h2 : ((idx.foldl (fun a j => a.set j j) (List.replicate N 0)).take (k + 1)).foldl
        max 0 ≤ js := by
      rcases foldl_max_cases ((idx.foldl (fun a j => a.set j j)
        (List.replicate N 0)).take (k + 1)) 0 with h | h
      · omega
      · exact hub _ h
    omega

namespace TimeSeriesBuffer

/-- C3: irregular-rate synthesis.  For a buffer with nominal rate 0, a numeric
payload and fresh sorted timestamps landing in distinct fill slots, the
synthesis block replaces the incoming chunk by a dense series at the 1000 Hz
override rate: the fill time vector has `ceil((latest - last_write_time) * 1000)`
samples at `last_write_time + (1+k)/1000`, starting just after
`last_write_time` and ending at the first grid point at or past the latest
incoming timestamp; each fill slot holds the most recent event value at or
before it (zero-order hold), backfilled from the buffer before the first
event; and `update`'s sorted phase feeds exactly this synthesized pair into
the write phase. -/
theorem c3_irregular_synthesis (st : TimeSeriesBuffer) (data : List (List Val)) (ts : List ℚ)
    (hsr : st.srate = some 0) (hts : ts ≠ [])
    (hsorted : ts.Pairwise (· ≤ ·))
    (hfresh : ∀ t ∈ ts, st.lastWriteTime < t)
    (hinc : (st.synthIdx ts).Pairwise (· < ·))
    (hch : st.data.length = data.length)
    (htv : st.tvec ≠ []) :
    st.effSrate = IRREG_RATE_OVERRIDE ∧
    st.synthNFill ts = ceilNat ((lastD ts 0 - st.lastWriteTime) * IRREG_RATE_OVERRIDE) ∧
    (st.synthIrregular data ts true).2.1 = st.synthFillTvec ts ∧
    (st.synthFillTvec ts).length = st.synthNFill ts ∧
    (∀ k, k < st.synthNFill ts → (st.synthFillTvec ts).getD k 0 =
      st.lastWriteTime + ((1 + k : ℕ) : ℚ) / IRREG_RATE_OVERRIDE) ∧
    (st.synthFillTvec ts).headD 0 = st.lastWriteTime + 1 / IRREG_RATE_OVERRIDE ∧
    lastD ts 0 ≤ lastD (st.synthFillTvec ts) 0 ∧
    lastD (st.synthFillTvec ts) 0 < lastD ts 0 + 1 / IRREG_RATE_OVERRIDE ∧
    (st.synthIrregular data ts true).1.length = data.length ∧
    (∀ r k, r < data.length → k < st.synthNFill ts →
      ((st.synthIrregular data ts true).1.getD r []).getD k Val.nan =
        if (st.synthIdx ts).filter (fun j => decide (j ≤ k)) = [] then
          (st.data.getD r []).getD (st.writeIdx - 1) Val.nan
        else (data.getD r []).getD
          (((st.synthIdx ts).filter (fun j => decide (j ≤ k))).length - 1) Val.nan) ∧
    (∀ nVis, st.updateSorted data ts nVis false true =
      st.postSynth (st.synthIrregular data ts true).1 (st.synthIrregular data ts true).2.1
        nVis (st.synthIrregular data ts true).2.2.1
        (st.synthIrregular data ts true).2.2.2) := by
  have heff := effSrate_zero st hsr
  have hTmem : lastD ts 0 ∈ ts := lastD_mem hts
  have hT : st.lastWriteTime < lastD ts 0 := hfresh _ hTmem
  obtain ⟨hNle, hNlt, hNpos⟩ := synthNFill_bounds st ts hsr hT
  have hN : st.synthNFill ts =
      ceilNat ((lastD ts 0 - st.lastWriteTime) * IRREG_RATE_OVERRIDE) := by
    rw [synthNFill, heff]
  have hidxb : ∀ e ∈ st.synthIdx ts, e < st.synthNFill ts :=
    synthIdx_lt st ts hsr hts hsorted hfresh
  have h1000 : IRREG_RATE_OVERRIDE = (1000 : ℚ) := rfl
  have hlastfill : lastD (st.synthFillTvec ts) 0 =
      st.lastWriteTime + ((st.synthNFill ts : ℕ) : ℚ) / IRREG_RATE_OVERRIDE := by
    unfold lastD
    rw [synthFillTvec_length]
    rw [synthFillTvec_getD st ts _ (by omega), heff]
    congr 2
    have : 1 + (st.synthNFill ts - 1) = st.synthNFill ts := by omega
    rw [this]
  have hR1 : (st.synthIrregular data ts true).1 = gatherCols
      (if 0 < (st.synthIdx ts).headD 0 then
        setCol (assignCols (List.replicate data.length
          (List.replicate (st.synthNFill ts) (Val.num 0))) (st.synthIdx ts) data) 0
          (colAt st.data (st.writeIdx - 1))
      else assignCols (List.replicate data.length
        (List.replicate (st.synthNFill ts) (Val.num 0))) (st.synthIdx ts) data)
      (cummax 0 ((st.synthIdx ts).foldl (fun acc j => acc.set j j)
        (List.replicate (st.synthNFill ts) 0))) := rfl
  have hv0 : data.length = (List.replicate data.length
      (List.replicate (st.synthNFill ts) (Val.num 0))).length := by simp
  have hfd1len : (assignCols (List.replicate data.length
      (List.replicate (st.synthNFill ts) (Val.num 0))) (st.synthIdx ts) data).length =
      data.length := by
    rw [assignCols_length _ _ _ hv0]
    simp
  have hcollen : (colAt st.data (st.writeIdx - 1)).length = (assignCols
      (List.replicate data.length (List.replicate (st.synthNFill ts) (Val.num 0)))
      (st.synthIdx ts) data).length := by
    rw [hfd1len, colAt, List.length_map, hch]
  have hfd2len : (if 0 < (st.synthIdx ts).headD 0 then
      setCol (assignCols (List.replicate data.length
        (List.replicate (st.synthNFill ts) (Val.num 0))) (st.synthIdx ts) data) 0
        (colAt st.data (st.writeIdx - 1))
    else assignCols (List.replicate data.length
      (List.replicate (st.synthNFill ts) (Val.num 0))) (st.synthIdx ts) data).length =
      data.length := by
    split
    · rw [setCol_length _ _ _ hcollen, hfd1len]
    · exact hfd1len
  have hprevlen : (cummax 0 ((st.synthIdx ts).foldl (fun acc j => acc.set j j)
      (List.replicate (st.synthNFill ts) 0))).length = st.synthNFill ts := by
    rw [cummax_length, foldl_set_length]
    simp
  have hm0row : ∀ r, r < data.length → ((List.replicate data.length
      (List.replicate (st.synthNFill ts) (Val.num 0))).getD r []) =
      List.replicate (st.synthNFill ts) (Val.num 0) := by
    intro r hr
    rw [List.getD_eq_getElem _ _ (by simpa using hr), List.getElem_replicate]
  refine ⟨heff, hN, rfl, synthFillTvec_length st ts, ?_, ?_, ?_, ?_, ?_, ?_, ?_⟩
  · intro k hk
    rw [synthFillTvec_getD st ts k hk, heff]
  · rw [headD_eq_getD_zero, synthFillTvec_getD st ts 0 hNpos, heff]
    norm_num
  · rw [hlastfill, h1000]
    rw [h1000] at hNle
    linarith
  · rw [hlastfill, h1000]
    rw [h1000] at hNlt
    linarith
  · rw [hR1, gatherCols_length, hfd2len]
  · intro r k hr hk
    rw [hR1]
    rw [gatherCols_getD_getD _ _ r k (by rw [hfd2len]; exact hr) (by rw [hprevlen]; exact hk)]
    rw [prev_getD_event (st.synthIdx ts) (st.synthNFill ts) k hidxb hk hinc]
    by_cases hF : (st.synthIdx ts).filter (fun j => decide (j ≤ k)) = []
    · rw [if_pos hF, if_pos hF]
      have hidxne : st.synthIdx ts ≠ [] := by
        intro h
        have := synthIdx_length st ts
        rw [h] at this
        have hl : ts.length = 0 := by simpa using this.symm
        exact hts (List.length_eq_zero.mp hl)
      have hheadmem : (st.synthIdx ts).headD 0 ∈ st.synthIdx ts := by
        cases hidx : st.synthIdx ts with
        | nil => exact absurd hidx hidxne
        | cons a l => simp
      have hheadk : ¬ (st.synthIdx ts).headD 0 ≤ k := by
        intro hle
        have h2 := List.filter_eq_nil_iff.mp hF _ hheadmem
        simp only [decide_eq_true_eq] at h2
        exact h2 hle
      have hcond : 0 < (st.synthIdx ts).headD 0 := by omega
      rw [if_pos hcond]
      rw [setCol_getD_row _ _ _ _ hcollen (by rw [hfd1len]; exact hr)]
      rw [getD_set]
      rw [if_pos ⟨rfl, by
        rw [assignCols_row_length _ _ _ hv0 r, hm0row r hr]
        simpa using hNpos⟩]
      rw [colAt, getD_map_getD _ st.data r [] Val.nan (by rw [hch]; exact hr)]
    · rw [if_neg hF, if_neg hF]
      have hjsF : lastD ((st.synthIdx ts).filter (fun j => decide (j ≤ k))) 0 ∈
          (st.synthIdx ts).filter (fun j => decide (j ≤ k)) := lastD_memD 0 hF
      have hjsidx : lastD ((st.synthIdx ts).filter (fun j => decide (j ≤ k))) 0 ∈
          st.synthIdx ts := List.mem_of_mem_filter hjsF
      have hjsN : lastD ((st.synthIdx ts).filter (fun j => decide (j ≤ k))) 0 <
          st.synthNFill ts := hidxb _ hjsidx
      have hcp : (st.synthIdx ts).filter (fun j => decide (j ≤ k)) =
          (st.synthIdx ts).take ((st.synthIdx ts).countP (fun j => decide (j ≤ k))) :=
        sorted_filter_le_take k (st.synthIdx ts) (hinc.imp (fun h => le_of_lt h))
      have hcple : (st.synthIdx ts).countP (fun j => decide (j ≤ k)) ≤
          (st.synthIdx ts).length := List.countP_le_length _
      have hFlen : ((st.synthIdx ts).filter (fun j => decide (j ≤ k))).length =
          (st.synthIdx ts).countP (fun j => decide (j ≤ k)) := by
        rw [hcp, List.length_take]
        omega
      have hFpos : 0 < ((st.synthIdx ts).filter (fun j => decide (j ≤ k))).length :=
        List.length_pos.mpr hF
      have he_lt : ((st.synthIdx ts).filter (fun j => decide (j ≤ k))).length - 1 <
          (st.synthIdx ts).length := by omega
      have hgetD : (st.synthIdx ts).getD
          (((st.synthIdx ts).filter (fun j => decide (j ≤ k))).length - 1) 0 =
          lastD ((st.synthIdx ts).filter (fun j => decide (j ≤ k))) 0 := by
        have hlt1 : ((st.synthIdx ts).filter (fun j => decide (j ≤ k))).length - 1 <
            ((st.synthIdx ts).filter (fun j => decide (j ≤ k))).length := by omega
        unfold lastD
        rw [List.getD_eq_getElem _ 0 hlt1, List.getD_eq_getElem _ 0 he_lt]
        rw [List.getElem_of_eq hcp hlt1, List.getElem_take]
      have hfd1entry : ((assignCols (List.replicate data.length
          (List.replicate (st.synthNFill ts) (Val.num 0))) (st.synthIdx ts) data).getD
            r []).getD (lastD ((st.synthIdx ts).filter (fun j => decide (j ≤ k))) 0)
            Val.nan =
          (data.getD r []).getD
            (((st.synthIdx ts).filter (fun j => decide (j ≤ k))).length - 1) Val.nan := by
        rw [← hgetD]
        exact assignCols_in (st.synthIdx ts) hinc _ data _ r he_lt hv0 (by
          rw [hm0row r hr, hgetD]
          simpa using hjsN)
      by_cases hcond : 0 < (st.synthIdx ts).headD 0
      · rw [if_pos hcond]
        have hhead_le : (st.synthIdx ts).headD 0 ≤
            lastD ((st.synthIdx ts).filter (fun j => decide (j ≤ k))) 0 := by
          cases hidx : st.synthIdx ts with
          | nil => simp [hidx] at hjsidx
          | cons a l =>
            rw [hidx] at hjsidx hinc
            rcases List.mem_cons.mp hjsidx with h | h
            · rw [List.headD_cons]
              omega
            · rw [List.headD_cons]
              rcases List.pairwise_cons.mp hinc with ⟨ha, _⟩
              exact le_of_lt (ha _ h)
        have hjs0 : lastD ((st.synthIdx ts).filter (fun j => decide (j ≤ k))) 0 ≠ 0 := by
          omega
        rw [setCol_getD_row _ _ _ _ hcollen (by rw [hfd1len]; exact hr)]
        rw [getD_set]
        rw [if_neg (by
          intro hcc
          exact hjs0 hcc.1.symm)]
        exact hfd1entry
      · rw [if_neg hcond]
        exact hfd1entry
  · intro nVis
    simp only [updateSorted, List.length_eq_zero, htv, if_false, hsr, if_true]
    rw [if_neg (by simp)]
    simp

end TimeSeriesBuffer

theorem countP_range_lt (n c : ℕ) :
    (List.range n).countP (fun k => decide (k < c)) = min n c := by
  induction n with
  | zero => simp
  | succ n ih =>
    rw [List.range_succ, List.countP_append, ih]
    simp only [List.countP_cons, List.countP_nil]
    by_cases h : n < c
    · simp [h]
      omega
    · simp [h]
      omega

theorem ssLeft_synthFillTvec (st : TimeSeriesBuffer) (ts : List ℚ) (t : ℚ) :
    ssLeft (st.synthFillTvec ts) t =
      (List.range (st.synthNFill ts)).countP
        (fun k => decide (st.lastWriteTime + ((1 + k : ℕ) : ℚ) / st.effSrate < t)) := by
  rw [ssLeft, TimeSeriesBuffer.synthFillTvec, List.countP_map]
  rfl

namespace TimeSeriesBuffer

theorem writeChunk_all_wrapped (st : TimeSeriesBuffer) (data : List (List Val)) (ts : List ℚ)
    (hmode : st.mode = TSMode.Sweep) (hts : ts ≠ [])
    (hwrap : ∀ t ∈ ts, lastD st.tvec 0 + 1 / st.effSrate < t)
    (hrows : ∀ r ∈ data, r.length = ts.length)
    (hew : st.extendWrite = false) :
    st.writeChunk data ts [] [] =
      (st.resetTvec (some (ts.headD 0))).insertSweep data ts := by
  have hall : ∀ t ∈ ts, (fun t => decide (lastD st.tvec 0 + 1 / st.effSrate < t)) t = true := by
    intro t ht
    simpa using hwrap t ht
  have hfalse : ∀ b ∈ (ts.map (fun t => decide (lastD st.tvec 0 + 1 / st.effSrate < t))).map
      not, b = false := by
    intro b hb
    obtain ⟨c, hc, rfl⟩ := List.mem_map.mp hb
    obtain ⟨t, ht, rfl⟩ := List.mem_map.mp hc
    have h := hwrap t ht
    rw [one_div] at h
    simp [h]
  have hnotany : ((ts.map (fun t => decide (lastD st.tvec 0 + 1 / st.effSrate < t))).map
      not).any id = false := by
    rw [List.any_eq_false]
    intro b hb
    rw [hfalse b hb]
    simp
  have hany : (ts.map (fun t => decide (lastD st.tvec 0 + 1 / st.effSrate < t))).any id =
      true := by
    cases ts with
    | nil => exact absurd rfl hts
    | cons a l =>
      have h := hwrap a (by simp)
      rw [one_div] at h
      simp [h]
  have hmaskts : maskList ts (ts.map (fun t => decide (lastD st.tvec 0 + 1 / st.effSrate < t)))
      = ts := maskList_map_true ts ts _ rfl hall
  have hmaskd : data.map (fun r =>
      maskList r (ts.map (fun t => decide (lastD st.tvec 0 + 1 / st.effSrate < t)))) =
      data := by
    conv_rhs => rw [← List.map_id data]
    exact List.map_congr_left (fun r hr => maskList_map_true r ts _ (hrows r hr) hall)
  simp only [writeChunk]
  rw [if_neg (by simp [hmode])]
  rw [hnotany, hany, hmaskts, hmaskd]
  simp [hew]

end TimeSeriesBuffer

/-- C7: sweep wraparound.  In Sweep mode, when every incoming timestamp
exceeds `time_vector[-1] + 1/rate`, the write phase performs a fresh
time-vector reset anchored at the first wrapped timestamp — snapped down to
its `duration_seconds` bucket — and then writes the samples as a new current
sweep; concretely, with rate 2 and duration 2 (capacity 4), `reset(t0=0)`
yields `time_vector=[0,0.5,1,1.5]` with `write_index=0`, and a subsequent
`update(timestamps=[2.1])` lands in the sweep timeline re-anchored at 2.0. -/
theorem c7_sweep_wraparound (st : TimeSeriesBuffer) (data : List (List Val)) (ts : List ℚ)
    (hmode : st.mode = TSMode.Sweep) (hts : ts ≠ [])
    (hwrap : ∀ t ∈ ts, lastD st.tvec 0 + 1 / st.effSrate < t)
    (hrows : ∀ r ∈ data, r.length = ts.length)
    (hew : st.extendWrite = false) :
    (st.writeChunk data ts [] [] =
      (st.resetTvec (some (ts.headD 0))).insertSweep data ts ∧
     (st.resetTvec (some (ts.headD 0))).tvec = (List.range st.nCols).map
        (fun i : ℕ => (ts.headD 0 - fmod (ts.headD 0) st.duration) +
          (i : ℚ) / st.effSrate)) ∧
    ((⟨TSMode.Sweep, some 2, 2, [], [], [], [], 0, false⟩ :
        TimeSeriesBuffer).reset 1 (some 0) none 0).tvec = [0, 1/2, 1, 3/2] ∧
    ((⟨TSMode.Sweep, some 2, 2, [], [], [], [], 0, false⟩ :
        TimeSeriesBuffer).reset 1 (some 0) none 0).writeIdx = 0 ∧
    ((⟨TSMode.Sweep, some 2, 2, [], [], [], [], 0, false⟩ :
        TimeSeriesBuffer).reset 1 (some 0) none 0).update [[Val.num 9]] [21/10]
        [⟨0, true⟩] true true =
      ⟨TSMode.Sweep, some 2, 2, [[Val.num 9, Val.nan, Val.nan, Val.nan]],
        [2, 5/2, 3, 7/2], [], [], 1, false⟩ := by
  refine ⟨⟨TimeSeriesBuffer.writeChunk_all_wrapped st data ts hmode hts hwrap hrows hew, ?_⟩,
    by decide, by decide, by decide⟩
  rw [TimeSeriesBuffer.resetTvec_some_sweep_eq st (ts.headD 0) hmode]

theorem c7_witness :
    ((⟨TSMode.Sweep, some 2, 2, [[Val.nan, Val.nan]], [0, 1/2], [], [], 0, false⟩ :
        TimeSeriesBuffer).mode = TSMode.Sweep ∧
      ([(3 : ℚ)] : List ℚ) ≠ [] ∧
      (∀ t ∈ ([(3 : ℚ)] : List ℚ),
        lastD (⟨TSMode.Sweep, some 2, 2, [[Val.nan, Val.nan]], [0, 1/2], [], [], 0, false⟩ :
          TimeSeriesBuffer).tvec 0 +
          1 / (⟨TSMode.Sweep, some 2, 2, [[Val.nan, Val.nan]], [0, 1/2], [], [], 0,
            false⟩ : TimeSeriesBuffer).effSrate < t) ∧
      (∀ r ∈ ([[Val.num 4]] : List (List Val)), r.length = ([(3 : ℚ)] : List ℚ).length) ∧
      (⟨TSMode.Sweep, some 2, 2, [[Val.nan, Val.nan]], [0, 1/2], [], [], 0, false⟩ :
        TimeSeriesBuffer).extendWrite = false) ∧
    (⟨TSMode.Sweep, some 2, 2, [[Val.nan, Val.nan]], [0, 1/2], [], [], 0, false⟩ :
        TimeSeriesBuffer).writeChunk [[Val.num 4]] [3] [] [] =
      ((⟨TSMode.Sweep, some 2, 2, [[Val.nan, Val.nan]], [0, 1/2], [], [], 0, false⟩ :
        TimeSeriesBuffer).resetTvec (some (([(3 : ℚ)] : List ℚ).headD 0))).insertSweep
        [[Val.num 4]] [3] := by
  have h := c7_sweep_wraparound
    ⟨TSMode.Sweep, some 2, 2, [[Val.nan, Val.nan]], [0, 1/2], [], [], 0, false⟩
    [[Val.num 4]] [3] rfl (by decide) (by decide) (by decide) rfl
  exact ⟨⟨rfl, by decide, by decide, by decide, rfl⟩, h.1.1⟩


theorem c3_witness :
    ((⟨TSMode.Scroll, some 0, 2, [[Val.num 7]], [0], [], [], 1, false⟩ :
        TimeSeriesBuffer).srate = some 0 ∧
      ([(1 : ℚ)/1000, 2001/1000] : List ℚ) ≠ [] ∧
      ([(1 : ℚ)/1000, 2001/1000] : List ℚ).Pairwise (· ≤ ·) ∧
      (∀ t ∈ ([(1 : ℚ)/1000, 2001/1000] : List ℚ),
        (⟨TSMode.Scroll, some 0, 2, [[Val.num 7]], [0], [], [], 1, false⟩ :
          TimeSeriesBuffer).lastWriteTime < t) ∧
      ((⟨TSMode.Scroll, some 0, 2, [[Val.num 7]], [0], [], [], 1, false⟩ :
        TimeSeriesBuffer).synthIdx [(1 : ℚ)/1000, 2001/1000]).Pairwise (· < ·) ∧
      (⟨TSMode.Scroll, some 0, 2, [[Val.num 7]], [0], [], [], 1, false⟩ :
        TimeSeriesBuffer).data.length = ([[Val.num 5, Val.num 6]] : List (List Val)).length ∧
      (⟨TSMode.Scroll, some 0, 2, [[Val.num 7]], [0], [], [], 1, false⟩ :
        TimeSeriesBuffer).tvec ≠ []) ∧
    (⟨TSMode.Scroll, some 0, 2, [[Val.num 7]], [0], [], [], 1, false⟩ :
      TimeSeriesBuffer).synthNFill [(1 : ℚ)/1000, 2001/1000] = 2001 ∧
    (⟨TSMode.Scroll, some 0, 2, [[Val.num 7]], [0], [], [], 1, false⟩ :
      TimeSeriesBuffer).effSrate = IRREG_RATE_OVERRIDE ∧
    ((⟨TSMode.Scroll, some 0, 2, [[Val.num 7]], [0], [], [], 1, false⟩ :
      TimeSeriesBuffer).synthIrregular [[Val.num 5, Val.num 6]] [(1 : ℚ)/1000, 2001/1000]
        true).2.1 =
      (⟨TSMode.Scroll, some 0, 2, [[Val.num 7]], [0], [], [], 1, false⟩ :
        TimeSeriesBuffer).synthFillTvec [(1 : ℚ)/1000, 2001/1000] ∧
    ((⟨TSMode.Scroll, some 0, 2, [[Val.num 7]], [0], [], [], 1, false⟩ :
      TimeSeriesBuffer).synthFillTvec [(1 : ℚ)/1000, 2001/1000]).length =
      (⟨TSMode.Scroll, some 0, 2, [[Val.num 7]], [0], [], [], 1, false⟩ :
        TimeSeriesBuffer).synthNFill [(1 : ℚ)/1000, 2001/1000] := by
  have hL : (⟨TSMode.Scroll, some 0, 2, [[Val.num 7]], [0], [], [], 1, false⟩ :
      TimeSeriesBuffer).lastWriteTime = 0 := by decide
  have hE : (⟨TSMode.Scroll, some 0, 2, [[Val.num 7]], [0], [], [], 1, false⟩ :
      TimeSeriesBuffer).effSrate = 1000 := by decide
  have hN : (⟨TSMode.Scroll, some 0, 2, [[Val.num 7]], [0], [], [], 1, false⟩ :
      TimeSeriesBuffer).synthNFill [(1 : ℚ)/1000, 2001/1000] = 2001 := by decide
  have hs1 : ssLeft ((⟨TSMode.Scroll, some 0, 2, [[Val.num 7]], [0], [], [], 1, false⟩ :
      TimeSeriesBuffer).synthFillTvec [(1 : ℚ)/1000, 2001/1000]) ((1 : ℚ)/1000) = 0 := by
    rw [ssLeft_synthFillTvec, hN]
    have hc : (List.range 2001).countP (fun k => decide
        ((⟨TSMode.Scroll, some 0, 2, [[Val.num 7]], [0], [], [], 1, false⟩ :
          TimeSeriesBuffer).lastWriteTime + ((1 + k : ℕ) : ℚ) /
          (⟨TSMode.Scroll, some 0, 2, [[Val.num 7]], [0], [], [], 1, false⟩ :
          TimeSeriesBuffer).effSrate < (1 : ℚ)/1000)) =
        (List.range 2001).countP (fun k => decide (k < 0)) := by
      apply countP_congr_mem
      intro k _
      rw [hL, hE]
      have hk1 : (1 : ℚ) ≤ ((1 + k : ℕ) : ℚ) := by
        exact_mod_cast Nat.le_add_right 1 k
      have hnot : ¬ ((0 : ℚ) + ((1 + k : ℕ) : ℚ) / 1000 < (1 : ℚ)/1000) := by
        rw [not_lt]
        linarith
      simp [hnot]
      push_cast at hk1
      rw [inv_eq_one_div]
      linarith
    rw [hc, countP_range_lt]
    decide
  have hs2 : ssLeft ((⟨TSMode.Scroll, some 0, 2, [[Val.num 7]], [0], [], [], 1, false⟩ :
      TimeSeriesBuffer).synthFillTvec [(1 : ℚ)/1000, 2001/1000]) ((2001 : ℚ)/1000) =
      2000 := by
    rw [ssLeft_synthFillTvec, hN]
    have hc : (List.range 2001).countP (fun k => decide
        ((⟨TSMode.Scroll, some 0, 2, [[Val.num 7]], [0], [], [], 1, false⟩ :
          TimeSeriesBuffer).lastWriteTime + ((1 + k : ℕ) : ℚ) /
          (⟨TSMode.Scroll, some 0, 2, [[Val.num 7]], [0], [], [], 1, false⟩ :
          TimeSeriesBuffer).effSrate < (2001 : ℚ)/1000)) =
        (List.range 2001).countP (fun k => decide (k < 2000)) := by
      apply countP_congr_mem
      intro k _
      rw [hL, hE]
      by_cases h : k < 2000
      · have h1 : ((1 + k : ℕ) : ℚ) < 2001 := by
          exact_mod_cast (by omega : 1 + k < 2001)
        have h2 : (0 : ℚ) + ((1 + k : ℕ) : ℚ) / 1000 < (2001 : ℚ)/1000 := by linarith
        simp [h, h2]
        push_cast at h1
        linarith
      · have h1 : (2001 : ℚ) ≤ ((1 + k : ℕ) : ℚ) := by
          exact_mod_cast (by omega : 2001 ≤ 1 + k)
        have h2 : ¬ ((0 : ℚ) + ((1 + k : ℕ) : ℚ) / 1000 < (2001 : ℚ)/1000) := by
          rw [not_lt]
          linarith
        simp [h, h2]
        push_cast at h1
        linarith
    rw [hc, countP_range_lt]
    decide
  have hidx : (⟨TSMode.Scroll, some 0, 2, [[Val.num 7]], [0], [], [], 1, false⟩ :
      TimeSeriesBuffer).synthIdx [(1 : ℚ)/1000, 2001/1000] =
      [ssLeft ((⟨TSMode.Scroll, some 0, 2, [[Val.num 7]], [0], [], [], 1, false⟩ :
          TimeSeriesBuffer).synthFillTvec [(1 : ℚ)/1000, 2001/1000]) ((1 : ℚ)/1000),
        ssLeft ((⟨TSMode.Scroll, some 0, 2, [[Val.num 7]], [0], [], [], 1, false⟩ :
          TimeSeriesBuffer).synthFillTvec [(1 : ℚ)/1000, 2001/1000]) ((2001 : ℚ)/1000)] :=
    rfl
  have hinc : ((⟨TSMode.Scroll, some 0, 2, [[Val.num 7]], [0], [], [], 1, false⟩ :
      TimeSeriesBuffer).synthIdx [(1 : ℚ)/1000, 2001/1000]).Pairwise (· < ·) := by
    rw [hidx, hs1, hs2]
    decide
  obtain ⟨heff, hN2, hR2, hlen, -⟩ := TimeSeriesBuffer.c3_irregular_synthesis
    ⟨TSMode.Scroll, some 0, 2, [[Val.num 7]], [0], [], [], 1, false⟩
    [[Val.num 5, Val.num 6]] [(1 : ℚ)/1000, 2001/1000]
    rfl (by decide) (by decide) (by decide) hinc rfl (by decide)
  exact ⟨⟨rfl, by decide, by decide, by decide, hinc, rfl, by decide⟩,
    hN, heff, hR2, hlen⟩
